import Mathlib

/-!
Verification of the stream-configuration logic of the default camera HAL
(`modules/camera/Camera.cpp`).

The development shallowly embeds the `Camera` class: the per-device state is
a record holding the busy flag, the committed stream array (`mStreams` /
`mNumStreams`, modelled as a list of heap handles) and an explicit heap of
`Stream` objects, so that C++ object identity becomes handle equality and
`delete` becomes removal from the heap.  The collaborator class `Stream`
(`Stream.cpp` / `Stream.h`), the gralloc usage flags and the errno values are
not among the sources; the definitions that stand in for them are modelled
from the spec and marked as such in their doc comments.
-/

set_option maxHeartbeats 1000000

namespace DefaultCameraHal

/-- Modelled from the spec: errno header is not among the sources.  Value of
`EINVAL` on Linux. -/
def EINVAL : Int := 22

/-- Modelled from the spec: errno header is not among the sources.  Value of
`EBUSY` on Linux. -/
def EBUSY : Int := 16

/-- Modelled from the spec: `camera3.h` is not among the sources.  The stream
type classification of a `camera3_stream_t`: output, input, or
bidirectional. -/
inductive StreamType where
  | output
  | input
  | bidirectional
deriving DecidableEq, Repr

/-- Modelled from the spec: `Stream.h` is not among the sources.  The fields
of a `Stream` object that the core logic reads or writes: the owning device
id, the type classification, the reuse marker, the assigned usage flags and
the assigned maximum in-flight buffer count. -/
structure StreamData where
  mId : Int
  mType : StreamType
  mReuse : Bool
  mUsage : Nat
  mMaxBuffers : Nat
deriving DecidableEq, Repr

/-- Modelled from the spec: `camera3.h` is not among the sources.  The fields
of a `camera3_stream_t` descriptor that the core logic reads or writes:
the type, the usage and max-buffer outputs, and the `priv` field holding the
backing stream handle (the tag written by `configureStreams`). -/
structure Camera3Stream where
  stream_type : StreamType
  usage : Nat
  max_buffers : Nat
  priv : Option Nat
deriving DecidableEq, Repr

/-- Modelled from the spec: a bidirectional stream counts as input-capable
(`Stream::isInputType`, `Stream.cpp` is not among the sources). -/
def StreamData.isInputType (d : StreamData) : Bool :=
  match d.mType with
  | .input => true
  | .bidirectional => true
  | .output => false

/-- Modelled from the spec: a bidirectional stream counts as output-capable
(`Stream::isOutputType`, `Stream.cpp` is not among the sources). -/
def StreamData.isOutputType (d : StreamData) : Bool :=
  match d.mType with
  | .output => true
  | .bidirectional => true
  | .input => false

/-- Modelled from the spec: `Stream::isValidReuseStream` (`Stream.cpp` is not
among the sources) verifies that a descriptor claiming reuse matches the
backing stream: same owning device id and same type classification (the only
immutable descriptor field present in the model). -/
def StreamData.isValidReuseStream (d : StreamData) (id : Int)
    (a : Camera3Stream) : Bool :=
  decide (d.mId = id) && decide (d.mType = a.stream_type)

/-- Modelled from the spec: gralloc header is not among the sources.  Android
value of `GRALLOC_USAGE_SW_READ_OFTEN`. -/
def GRALLOC_USAGE_SW_READ_OFTEN : Nat := 0x3

/-- Modelled from the spec: gralloc header is not among the sources.  Android
value of `GRALLOC_USAGE_SW_WRITE_OFTEN`. -/
def GRALLOC_USAGE_SW_WRITE_OFTEN : Nat := 0x30

/-- Modelled from the spec: gralloc header is not among the sources.  Android
value of `GRALLOC_USAGE_HW_CAMERA_WRITE`. -/
def GRALLOC_USAGE_HW_CAMERA_WRITE : Nat := 0x20000

/-- Modelled from the spec: gralloc header is not among the sources.  Android
value of `GRALLOC_USAGE_HW_CAMERA_READ`. -/
def GRALLOC_USAGE_HW_CAMERA_READ : Nat := 0x40000

/-- A heap of `Stream` objects.  `next` is the next fresh handle; every
handle ever allocated is below `next`.  C++ object identity is handle
equality; `delete` removes the handle's entry. -/
structure Heap where
  next : Nat
  find : Nat → Option StreamData

/-- `new Stream(...)`: allocate at handle `next`. -/
def Heap.alloc (hp : Heap) (d : StreamData) : Heap :=
  ⟨hp.next + 1, fun k => if k = hp.next then some d else hp.find k⟩

/-- In-place mutation of the object at handle `h` (no-op on a dead handle in
the sense that the entry stays dead). -/
def Heap.update (hp : Heap) (h : Nat) (d : StreamData) : Heap :=
  ⟨hp.next, fun k => if k = h then some d else hp.find k⟩

/-- `delete`: remove the entry at handle `h`. -/
def Heap.free (hp : Heap) (h : Nat) : Heap :=
  ⟨hp.next, fun k => if k = h then none else hp.find k⟩

/-- The empty heap. -/
def Heap.empty : Heap := ⟨0, fun _ => none⟩

/-- Heap well-formedness: nothing lives at or above `next`. -/
def Heap.bounded (hp : Heap) : Prop :=
  ∀ k, hp.next ≤ k → hp.find k = none

/-- The per-device state of `Camera`: device id, busy flag, stored module
and callback handles, the committed stream array (`mStreams`, with
`mNumStreams = mStreams.length`) and the heap of `Stream` objects. -/
structure Camera where
  mId : Int
  mBusy : Bool
  mModule : Option Nat
  mCallbackOps : Option Nat
  mStreams : List Nat
  heap : Heap

/-- `Camera::Camera(int id)`: busy flag clear, no callbacks, no streams. -/
def Camera.mk0 (id : Int) : Camera :=
  ⟨id, false, none, none, [], Heap.empty⟩

/-- `Camera::open`: fail with `-EBUSY` if already open, otherwise mark busy
and store the caller's module handle.  (Named `openDevice` because `open` is
a Lean keyword.) -/
def Camera.openDevice (c : Camera) (module : Nat) : Int × Camera :=
  if c.mBusy then (-EBUSY, c)
  else (0, { c with mBusy := true, mModule := some module })

/-- `Camera::close`: fail with `-EINVAL` if not open, otherwise clear the
busy flag.  (Named `closeDevice` for symmetry with `openDevice`.) -/
def Camera.closeDevice (c : Camera) : Int × Camera :=
  if !c.mBusy then (-EINVAL, c)
  else (0, { c with mBusy := false })

/-- `Camera::initialize`: store the callback-ops handle and return 0.
(Renamed `initDevice`; the source name is the C++ member `initialize`.) -/
def Camera.initDevice (c : Camera) (callbackOps : Nat) : Int × Camera :=
  (0, { c with mCallbackOps := some callbackOps })

/-- `Stream::Stream(int id, camera3_stream_t *s)`, modelled from the spec
(`Stream.cpp` is not among the sources): a fresh stream is bound to the
constructing device's id, records the descriptor's type classification, and
starts with the reuse marker clear and no usage / max-buffer assignment. -/
def newStream (camId : Int) (a : Camera3Stream) : StreamData :=
  ⟨camId, a.stream_type, false, 0, 0⟩

/-- `Camera::reuseStream`: resolve the descriptor's `priv` handle, verify
compatibility, and on success mark the backing stream reused.  Returns
`none` where the C++ returns `NULL` (compatibility failure); a `priv` field
that does not resolve to a live stream is undefined behaviour in the C++
(unchecked pointer dereference) and is also mapped to `none`. -/
def reuseStream (camId : Int) (hp : Heap) (a : Camera3Stream) :
    Option (Nat × Heap) :=
  match a.priv with
  | none => none
  | some h =>
    match hp.find h with
    | none => none
    | some d =>
      if d.isValidReuseStream camId a then
        some (h, hp.update h { d with mReuse := true })
      else none

/-- `Camera::isValidStreamSet` on the dereferenced stream array: at most one
input-capable and at least one output-capable stream, non-empty.  (The
`streams == NULL` guard of the C++ has no counterpart: a Lean list models a
non-null array, and `configureStreams` always passes the array it just
allocated.) -/
def isValidStreamSet (streams : List StreamData) : Bool :=
  if streams.length = 0 then false
  else
    let inputs := streams.countP (fun d => d.isInputType)
    let outputs := streams.countP (fun d => d.isOutputType)
    if outputs < 1 then false
    else if inputs > 1 then false
    else true

/-- The usage bitmask computed by `Camera::setupStreams` for one stream:
write flags if output-capable, read flags if input-capable, both for a
bidirectional stream. -/
def streamUsage (d : StreamData) : Nat :=
  (if d.isOutputType then
    GRALLOC_USAGE_SW_WRITE_OFTEN ||| GRALLOC_USAGE_HW_CAMERA_WRITE
  else 0) |||
  (if d.isInputType then
    GRALLOC_USAGE_SW_READ_OFTEN ||| GRALLOC_USAGE_HW_CAMERA_READ
  else 0)

/-- The new field values `Stream::setUsage` / `Stream::setMaxBuffers` store
for one stream in `Camera::setupStreams`. -/
def setupData (d : StreamData) : StreamData :=
  { d with mUsage := streamUsage d, mMaxBuffers := 1 }

/-- One iteration of the `Camera::setupStreams` loop. -/
def setupStep (hp : Heap) (h : Nat) : Heap :=
  match hp.find h with
  | some d => hp.update h (setupData d)
  | none => hp

/-- `Camera::setupStreams` effect on the heap: assign `streamUsage` and a
max-buffer count of 1 to every stream of the candidate array. -/
def setupStreams (hp : Heap) (hs : List Nat) : Heap :=
  hs.foldl setupStep hp

/-- Modelled from the spec: `Stream::setUsage` / `Stream::setMaxBuffers`
(`Stream.cpp` is not among the sources) also write the assigned usage and
max-buffer count back into the stream's descriptor — the spec's "positive
max-buffer value left over from a prior configuration".  This is that
write-back on the descriptor list, reading the values just stored in the
heap. -/
def setupDescs (hp : Heap) (ds : List Camera3Stream) (hs : List Nat) :
    List Camera3Stream :=
  List.zipWith
    (fun a h =>
      match hp.find h with
      | some d => { a with usage := d.mUsage, max_buffers := d.mMaxBuffers }
      | none => a)
    ds hs

/-- One iteration of the `Camera::destroyStreams` loop: delete the stream
unless its reuse marker is set (a dead handle is the C++ `NULL` entry
guard). -/
def destroyStep (hp : Heap) (h : Nat) : Heap :=
  match hp.find h with
  | some d => if d.mReuse then hp else hp.free h
  | none => hp

/-- `Camera::destroyStreams`: delete every stream of the array whose reuse
marker is clear (the array itself is a Lean list and needs no `delete []`). -/
def destroyStreams (hp : Heap) (hs : List Nat) : Heap :=
  hs.foldl destroyStep hp

/-- One iteration of the "mark all current streams unused" loop. -/
def clearStep (hp : Heap) (h : Nat) : Heap :=
  match hp.find h with
  | some d => hp.update h { d with mReuse := false }
  | none => hp

/-- The loop "mark all current streams unused for now" at the head of
`Camera::configureStreams`. -/
def clearReuse (hp : Heap) (hs : List Nat) : Heap :=
  hs.foldl clearStep hp

/-- Outcome of the reuse-or-create loop of `Camera::configureStreams`.  On
success: the heap after processing, the mutated (tagged) descriptor list and
the candidate handle array.  On failure at some descriptor: the heap so far,
the tagged processed descriptors, the untouched remainder (failing
descriptor first) and the candidate handles filled so far. -/
inductive FillResult where
  | ok (hp : Heap) (ds : List Camera3Stream) (hs : List Nat)
  | fail (hp : Heap) (done : List Camera3Stream) (rest : List Camera3Stream)
      (hs : List Nat)

/-- The reuse-or-create loop of `Camera::configureStreams` (lines 139-151):
a positive `max_buffers` sentinel takes the reuse path, otherwise a fresh
`Stream` is constructed; each processed descriptor's `priv` is overwritten
with its stream handle.  A `NULL` from `reuseStream` aborts the loop. -/
def fillLoop (camId : Int) (hp : Heap) :
    List Camera3Stream → FillResult
  | [] => .ok hp [] []
  | a :: rest =>
    let step :=
      if a.max_buffers > 0 then reuseStream camId hp a
      else some (hp.next, hp.alloc (newStream camId a))
    match step with
    | none => .fail hp [] (a :: rest) []
    | some (h, hp') =>
      match fillLoop camId hp' rest with
      | .ok hp'' ds hs => .ok hp'' ({ a with priv := some h } :: ds) (h :: hs)
      | .fail hp'' done rest' hs =>
          .fail hp'' ({ a with priv := some h } :: done) rest' (h :: hs)

/-- A dummy stream value for the (unreachable) dead-handle arm of the
dereference below. -/
def dummyStream : StreamData := ⟨0, .output, false, 0, 0⟩

/-- Dereference a candidate handle array against the heap, as the C++ does
implicitly when `isValidStreamSet` reads `streams[i]->...`. -/
def derefAll (hp : Heap) (hs : List Nat) : List StreamData :=
  hs.map (fun h => (hp.find h).getD dummyStream)

/-- `Camera::configureStreams`.  The argument is `none` for a `NULL`
configuration pointer.  Returns the status, the device state after the call
and the caller's descriptor list after the call's in-place mutations
(`none` when the argument was `none`). -/
def Camera.configureStreams (c : Camera)
    (cfg : Option (List Camera3Stream)) :
    Int × Camera × Option (List Camera3Stream) :=
  match cfg with
  | none => (-EINVAL, c, none)
  | some ds =>
    if ds.length = 0 then (-EINVAL, c, some ds)
    else
      let hp0 := clearReuse c.heap c.mStreams
      match fillLoop c.mId hp0 ds with
      | .fail hpE done rest hsE =>
          (-EINVAL, { c with heap := destroyStreams hpE hsE },
            some (done ++ rest))
      | .ok hpF ds1 hs =>
        if !isValidStreamSet (derefAll hpF hs) then
          (-EINVAL, { c with heap := destroyStreams hpF hs }, some ds1)
        else
          let hp2 := setupStreams hpF hs
          let ds2 := setupDescs hp2 ds1 hs
          let hp3 := destroyStreams hp2 c.mStreams
          (0, { c with heap := hp3, mStreams := hs }, some ds2)

/-! ### Specification-side descriptions of the transaction's outcome

The definitions below do not embed code; they are the vocabulary in which
the claim theorems describe what `configureStreams` computes. -/

/-- A descriptor whose type classification includes "input". -/
def descInput (a : Camera3Stream) : Bool :=
  match a.stream_type with
  | .input => true
  | .bidirectional => true
  | .output => false

/-- A descriptor whose type classification includes "output". -/
def descOutput (a : Camera3Stream) : Bool :=
  match a.stream_type with
  | .output => true
  | .bidirectional => true
  | .input => false

/-- The usage bitmask `setupStreams` produces, as a function of the type
classification alone. -/
def usageForType (t : StreamType) : Nat :=
  match t with
  | .output => GRALLOC_USAGE_SW_WRITE_OFTEN ||| GRALLOC_USAGE_HW_CAMERA_WRITE
  | .input => GRALLOC_USAGE_SW_READ_OFTEN ||| GRALLOC_USAGE_HW_CAMERA_READ
  | .bidirectional =>
      (GRALLOC_USAGE_SW_WRITE_OFTEN ||| GRALLOC_USAGE_HW_CAMERA_WRITE) |||
        (GRALLOC_USAGE_SW_READ_OFTEN ||| GRALLOC_USAGE_HW_CAMERA_READ)

/-- Number of descriptors of the list that do not signal reuse, i.e. that
cause a fresh `Stream` allocation. -/
def countFresh : List Camera3Stream → Nat
  | [] => 0
  | a :: rest => (if a.max_buffers > 0 then 0 else 1) + countFresh rest

/-- The candidate handle array the fill loop produces when every reuse
descriptor resolves: the descriptor's own `priv` handle at reuse positions,
consecutive fresh handles starting at `n` elsewhere. -/
def expectedHandles (n : Nat) : List Camera3Stream → List Nat
  | [] => []
  | a :: rest =>
    if a.max_buffers > 0 then a.priv.getD 0 :: expectedHandles n rest
    else n :: expectedHandles (n + 1) rest

/-- Descriptor list after the fill loop's in-place `priv` tagging. -/
def tagDescs (ds : List Camera3Stream) (hs : List Nat) : List Camera3Stream :=
  List.zipWith (fun a h => { a with priv := some h }) ds hs

/-- Every reuse descriptor of the list resolves against the heap to a live,
compatible stream whose handle lies below `N` (the pre-call allocation
bound). -/
def ResolvesBelow (camId : Int) (hp : Heap) (N : Nat)
    (ds : List Camera3Stream) : Prop :=
  ∀ a ∈ ds, a.max_buffers > 0 →
    ∃ h d, a.priv = some h ∧ hp.find h = some d ∧
      d.isValidReuseStream camId a = true ∧ h < N

/-- Pointwise description of the candidate array right after the fill loop
(before usage assignment): at a reuse position the handle is the
descriptor's own tag and the stream is marked reused; at a fresh position
the handle is at or above the pre-call bound `n0` and the stream is exactly
the freshly constructed one. -/
def FillMatch (camId : Int) (hpF : Heap) (n0 : Nat) :
    List Camera3Stream → List Nat → Prop
  | [], [] => True
  | a :: ds, h :: hs =>
      (∃ d, hpF.find h = some d ∧ d.mId = camId ∧ d.mType = a.stream_type ∧
        (if a.max_buffers > 0 then a.priv = some h ∧ d.mReuse = true
         else n0 ≤ h ∧ d = newStream camId a)) ∧
      FillMatch camId hpF n0 ds hs
  | _, _ => False

/-- Pointwise description of the committed set after a successful
transaction: at each index the committed stream is live, bound to the
device, of the descriptor's type, fully set up (usage and max-buffers
assigned), and is the descriptor's own tagged stream at reuse positions
and a stream that did not exist before the call at fresh positions. -/
def StreamsMatch (camId : Int) (hp hpOld : Heap) :
    List Camera3Stream → List Nat → Prop
  | [], [] => True
  | a :: ds, h :: hs =>
      (∃ d, hp.find h = some d ∧ d.mId = camId ∧ d.mType = a.stream_type ∧
        d.mMaxBuffers = 1 ∧ d.mUsage = usageForType a.stream_type ∧
        (if a.max_buffers > 0 then a.priv = some h ∧ d.mReuse = true
         else hpOld.find h = none ∧ d.mReuse = false)) ∧
      StreamsMatch camId hp hpOld ds hs
  | _, _ => False

/-- Pointwise description of the caller-visible descriptor list after a
successful transaction: each entry is the input entry with its `priv`
overwritten by the stream handle and the assigned usage and max-buffer
count (1) written back. -/
def OutsMatch : List Camera3Stream → List Camera3Stream → List Nat → Prop
  | [], [], [] => True
  | a :: ds, o :: os, h :: hs =>
      o = { a with priv := some h,
                   usage := usageForType a.stream_type,
                   max_buffers := 1 } ∧ OutsMatch ds os hs
  | _, _, _ => False

/-- Pointwise description of the caller-visible descriptor list after an
aborted transaction: each processed entry keeps its overwritten `priv` tag
and nothing else of it is changed. -/
def TagsMatch : List Camera3Stream → List Camera3Stream → List Nat → Prop
  | [], [], [] => True
  | a :: ds, o :: os, h :: hs =>
      o = { a with priv := some h } ∧ TagsMatch ds os hs
  | _, _, _ => False

/-! ### Concrete device and descriptor values, used to exercise the
theorems on closed inputs -/

/-- A freshly constructed device with id 0 and an empty heap. -/
def cam0 : Camera := Camera.mk0 0

/-- A fresh output-only descriptor (zero max-buffer sentinel, no tag). -/
def dOut : Camera3Stream := ⟨StreamType.output, 0, 0, none⟩

/-- A fresh input-only descriptor. -/
def dIn : Camera3Stream := ⟨StreamType.input, 0, 0, none⟩

/-- A descriptor claiming reuse (positive sentinel) of handle 0, but with
input type. -/
def dInReuse : Camera3Stream := ⟨StreamType.input, 0, 1, some 0⟩

/-- An output stream owned by device 0. -/
def sOut0 : StreamData := ⟨0, StreamType.output, false, 0, 0⟩

/-- A heap holding exactly `sOut0` at handle 0. -/
def heap1 : Heap := Heap.empty.alloc sOut0

/-- Device 0 with the single committed output stream at handle 0. -/
def camS : Camera := ⟨0, false, none, none, [0], heap1⟩

/-! ### Basic facts used throughout -/

theorem find_update_self (hp : Heap) (h : Nat) (d : StreamData) :
    (hp.update h d).find h = some d := by
  simp [Heap.update]

theorem find_update_other (hp : Heap) (h k : Nat) (d : StreamData)
    (hne : k ≠ h) : (hp.update h d).find k = hp.find k := by
  simp [Heap.update, hne]

theorem find_alloc_self (hp : Heap) (d : StreamData) :
    (hp.alloc d).find hp.next = some d := by
  simp [Heap.alloc]

theorem find_alloc_other (hp : Heap) (k : Nat) (d : StreamData)
    (hne : k ≠ hp.next) : (hp.alloc d).find k = hp.find k := by
  simp [Heap.alloc, hne]

theorem find_free_self (hp : Heap) (h : Nat) :
    (hp.free h).find h = none := by
  simp [Heap.free]

theorem find_free_other (hp : Heap) (h k : Nat) (hne : k ≠ h) :
    (hp.free h).find k = hp.find k := by
  simp [Heap.free, hne]

theorem streamData_eta (d : StreamData) : { d with mReuse := d.mReuse } = d :=
  rfl

theorem isValidReuseStream_mReuse (d : StreamData) (b : Bool) (id : Int)
    (a : Camera3Stream) :
    StreamData.isValidReuseStream { d with mReuse := b } id a =
      d.isValidReuseStream id a := rfl

theorem find_some_lt (hp : Heap) (h : Nat) (d : StreamData)
    (hb : hp.bounded) (hf : hp.find h = some d) : h < hp.next := by
  by_contra hge
  rw [hb h (Nat.le_of_not_lt hge)] at hf
  exact Option.noConfusion hf

theorem bounded_alloc (hp : Heap) (d : StreamData) (hb : hp.bounded) :
    (hp.alloc d).bounded := by
  intro k hk
  simp only [Heap.alloc] at hk ⊢
  rw [if_neg (by omega), hb k (by omega)]

theorem bounded_update (hp : Heap) (h : Nat) (d d' : StreamData)
    (hb : hp.bounded) (hf : hp.find h = some d') :
    (hp.update h d).bounded := by
  intro k hk
  simp only [Heap.update] at hk ⊢
  have hlt := find_some_lt hp h d' hb hf
  rw [if_neg (by omega), hb k hk]

theorem bounded_free (hp : Heap) (h : Nat) (hb : hp.bounded) :
    (hp.free h).bounded := by
  intro k hk
  simp only [Heap.free] at hk ⊢
  split_ifs with he
  · rfl
  · exact hb k hk

/-! ### Generic lemmas about heap folds -/

theorem foldl_heap_next (f : Heap → Nat → Heap)
    (hf : ∀ hp h, (f hp h).next = hp.next) :
    ∀ (hs : List Nat) (hp : Heap), (hs.foldl f hp).next = hp.next := by
  intro hs
  induction hs with
  | nil => intro hp; rfl
  | cons h t ih => intro hp; rw [List.foldl_cons, ih, hf]

theorem foldl_find_not_mem (f : Heap → Nat → Heap)
    (hf : ∀ hp h k, k ≠ h → (f hp h).find k = hp.find k) :
    ∀ (hs : List Nat) (hp : Heap) (k : Nat), k ∉ hs →
      (hs.foldl f hp).find k = hp.find k := by
  intro hs
  induction hs with
  | nil => intro hp k _; rfl
  | cons h t ih =>
    intro hp k hk
    rw [List.foldl_cons, ih _ k (fun hm => hk (List.mem_cons_of_mem h hm)),
      hf hp h k (fun he => hk (he ▸ List.mem_cons_self h t))]

theorem foldl_find_none (f : Heap → Nat → Heap)
    (hf : ∀ hp h k, hp.find k = none → (f hp h).find k = none) :
    ∀ (hs : List Nat) (hp : Heap) (k : Nat), hp.find k = none →
      (hs.foldl f hp).find k = none := by
  intro hs
  induction hs with
  | nil => intro hp k hk; exact hk
  | cons h t ih =>
    intro hp k hk
    rw [List.foldl_cons]
    exact ih _ k (hf hp h k hk)

theorem foldl_bounded (f : Heap → Nat → Heap)
    (hf : ∀ hp h, hp.bounded → (f hp h).bounded) :
    ∀ (hs : List Nat) (hp : Heap), hp.bounded → (hs.foldl f hp).bounded := by
  intro hs
  induction hs with
  | nil => intro hp hb; exact hb
  | cons h t ih =>
    intro hp hb
    rw [List.foldl_cons]
    exact ih _ (hf hp h hb)

/-! ### Pointwise properties of the three loop bodies -/

theorem clearStep_next (hp : Heap) (h : Nat) : (clearStep hp h).next = hp.next := by
  unfold clearStep
  cases hp.find h <;> rfl

theorem clearStep_find_other (hp : Heap) (h k : Nat) (hne : k ≠ h) :
    (clearStep hp h).find k = hp.find k := by
  unfold clearStep
  cases hp.find h with
  | none => rfl
  | some d => exact find_update_other hp h k _ hne

theorem clearStep_find_none (hp : Heap) (h k : Nat)
    (hk : hp.find k = none) : (clearStep hp h).find k = none := by
  by_cases he : k = h
  · subst he
    unfold clearStep
    rw [hk]
    exact hk
  · rw [clearStep_find_other hp h k he]; exact hk

theorem clearStep_bounded (hp : Heap) (h : Nat) (hb : hp.bounded) :
    (clearStep hp h).bounded := by
  unfold clearStep
  cases hf : hp.find h with
  | none => exact hb
  | some d => exact bounded_update hp h _ d hb hf

theorem setupStep_next (hp : Heap) (h : Nat) : (setupStep hp h).next = hp.next := by
  unfold setupStep
  cases hp.find h <;> rfl

theorem setupStep_find_other (hp : Heap) (h k : Nat) (hne : k ≠ h) :
    (setupStep hp h).find k = hp.find k := by
  unfold setupStep
  cases hp.find h with
  | none => rfl
  | some d => exact find_update_other hp h k _ hne

theorem setupStep_find_none (hp : Heap) (h k : Nat)
    (hk : hp.find k = none) : (setupStep hp h).find k = none := by
  by_cases he : k = h
  · subst he
    unfold setupStep
    rw [hk]
    exact hk
  · rw [setupStep_find_other hp h k he]; exact hk

theorem setupStep_bounded (hp : Heap) (h : Nat) (hb : hp.bounded) :
    (setupStep hp h).bounded := by
  unfold setupStep
  cases hf : hp.find h with
  | none => exact hb
  | some d => exact bounded_update hp h _ d hb hf

theorem destroyStep_next (hp : Heap) (h : Nat) :
    (destroyStep hp h).next = hp.next := by
  unfold destroyStep
  cases hp.find h with
  | none => rfl
  | some d => dsimp only; split_ifs <;> rfl

theorem destroyStep_find_other (hp : Heap) (h k : Nat) (hne : k ≠ h) :
    (destroyStep hp h).find k = hp.find k := by
  unfold destroyStep
  cases hp.find h with
  | none => rfl
  | some d =>
    dsimp only
    split_ifs
    · rfl
    · exact find_free_other hp h k hne

theorem destroyStep_find_none (hp : Heap) (h k : Nat)
    (hk : hp.find k = none) : (destroyStep hp h).find k = none := by
  by_cases he : k = h
  · subst he
    unfold destroyStep
    rw [hk]
    exact hk
  · rw [destroyStep_find_other hp h k he]; exact hk

theorem destroyStep_bounded (hp : Heap) (h : Nat) (hb : hp.bounded) :
    (destroyStep hp h).bounded := by
  unfold destroyStep
  cases hp.find h with
  | none => exact hb
  | some d =>
    dsimp only
    split_ifs
    · exact hb
    · exact bounded_free hp h hb

/-! ### Characterization of `clearReuse`, `setupStreams`, `destroyStreams` -/

theorem clearReuse_next (hp : Heap) (hs : List Nat) :
    (clearReuse hp hs).next = hp.next :=
  foldl_heap_next clearStep clearStep_next hs hp

theorem clearReuse_bounded (hp : Heap) (hs : List Nat) (hb : hp.bounded) :
    (clearReuse hp hs).bounded :=
  foldl_bounded clearStep clearStep_bounded hs hp hb

theorem clearReuse_find_not_mem (hp : Heap) (hs : List Nat) (k : Nat)
    (hk : k ∉ hs) : (clearReuse hp hs).find k = hp.find k :=
  foldl_find_not_mem clearStep clearStep_find_other hs hp k hk

theorem clearReuse_find_none (hp : Heap) (hs : List Nat) (k : Nat)
    (hk : hp.find k = none) : (clearReuse hp hs).find k = none :=
  foldl_find_none clearStep clearStep_find_none hs hp k hk

theorem clearReuse_find_mem (hs : List Nat) :
    ∀ (hp : Heap) (k : Nat) (d : StreamData), k ∈ hs → hp.find k = some d →
      (clearReuse hp hs).find k = some { d with mReuse := false } := by
  induction hs with
  | nil => intro hp k d hk _; exact absurd hk (List.not_mem_nil k)
  | cons h t ih =>
    intro hp k d hk hf
    have hstep : clearReuse hp (h :: t) = clearReuse (clearStep hp h) t := rfl
    rw [hstep]
    by_cases he : k = h
    · subst he
      have h1 : (clearStep hp k).find k = some { d with mReuse := false } := by
        unfold clearStep
        rw [hf]
        exact find_update_self hp k _
      by_cases hm : k ∈ t
      · have := ih (clearStep hp k) k { d with mReuse := false } hm h1
        simpa using this
      · rw [clearReuse_find_not_mem _ t k hm]
        exact h1
    · have hm : k ∈ t := by
        rcases List.mem_cons.mp hk with h' | h'
        · exact absurd h' he
        · exact h'
      exact ih (clearStep hp h) k d hm
        (by rw [clearStep_find_other hp h k he]; exact hf)

/-- Any live entry survives `clearReuse` with at most its reuse flag
changed. -/
theorem clearReuse_find_some (hp : Heap) (hs : List Nat) (k : Nat)
    (d : StreamData) (hf : hp.find k = some d) :
    ∃ b, (clearReuse hp hs).find k = some { d with mReuse := b } := by
  by_cases hm : k ∈ hs
  · exact ⟨false, clearReuse_find_mem hs hp k d hm hf⟩
  · refine ⟨d.mReuse, ?_⟩
    rw [clearReuse_find_not_mem hp hs k hm, streamData_eta]
    exact hf

theorem setupStreams_next (hp : Heap) (hs : List Nat) :
    (setupStreams hp hs).next = hp.next :=
  foldl_heap_next setupStep setupStep_next hs hp

theorem setupStreams_bounded (hp : Heap) (hs : List Nat) (hb : hp.bounded) :
    (setupStreams hp hs).bounded :=
  foldl_bounded setupStep setupStep_bounded hs hp hb

theorem setupStreams_find_not_mem (hp : Heap) (hs : List Nat) (k : Nat)
    (hk : k ∉ hs) : (setupStreams hp hs).find k = hp.find k :=
  foldl_find_not_mem setupStep setupStep_find_other hs hp k hk

theorem setupData_idem (d : StreamData) : setupData (setupData d) = setupData d :=
  rfl

theorem setupStreams_find_mem (hs : List Nat) :
    ∀ (hp : Heap) (k : Nat) (d : StreamData), k ∈ hs → hp.find k = some d →
      (setupStreams hp hs).find k = some (setupData d) := by
  induction hs with
  | nil => intro hp k d hk _; exact absurd hk (List.not_mem_nil k)
  | cons h t ih =>
    intro hp k d hk hf
    have hstep : setupStreams hp (h :: t) = setupStreams (setupStep hp h) t := rfl
    rw [hstep]
    by_cases he : k = h
    · subst he
      have h1 : (setupStep hp k).find k = some (setupData d) := by
        unfold setupStep
        rw [hf]
        exact find_update_self hp k _
      by_cases hm : k ∈ t
      · have := ih (setupStep hp k) k (setupData d) hm h1
        rwa [setupData_idem] at this
      · rw [setupStreams_find_not_mem _ t k hm]
        exact h1
    · have hm : k ∈ t := by
        rcases List.mem_cons.mp hk with h' | h'
        · exact absurd h' he
        · exact h'
      exact ih (setupStep hp h) k d hm
        (by rw [setupStep_find_other hp h k he]; exact hf)

theorem destroyStreams_next (hp : Heap) (hs : List Nat) :
    (destroyStreams hp hs).next = hp.next :=
  foldl_heap_next destroyStep destroyStep_next hs hp

theorem destroyStreams_bounded (hp : Heap) (hs : List Nat) (hb : hp.bounded) :
    (destroyStreams hp hs).bounded :=
  foldl_bounded destroyStep destroyStep_bounded hs hp hb

theorem destroyStreams_find_not_mem (hp : Heap) (hs : List Nat) (k : Nat)
    (hk : k ∉ hs) : (destroyStreams hp hs).find k = hp.find k :=
  foldl_find_not_mem destroyStep destroyStep_find_other hs hp k hk

theorem destroyStreams_find_none (hp : Heap) (hs : List Nat) (k : Nat)
    (hk : hp.find k = none) : (destroyStreams hp hs).find k = none :=
  foldl_find_none destroyStep destroyStep_find_none hs hp k hk

/-- A stream whose reuse marker is set survives `destroyStreams`
unchanged. -/
theorem destroyStreams_find_reuse (hs : List Nat) :
    ∀ (hp : Heap) (k : Nat) (d : StreamData), hp.find k = some d →
      d.mReuse = true → (destroyStreams hp hs).find k = some d := by
  induction hs with
  | nil => intro hp k d hf _; exact hf
  | cons h t ih =>
    intro hp k d hf hr
    have hstep : destroyStreams hp (h :: t) = destroyStreams (destroyStep hp h) t := rfl
    rw [hstep]
    refine ih (destroyStep hp h) k d ?_ hr
    by_cases he : k = h
    · subst he
      unfold destroyStep
      rw [hf]
      dsimp only
      rw [if_pos hr]
      exact hf
    · rw [destroyStep_find_other hp h k he]; exact hf

/-- A stream of the array whose reuse marker is clear is freed by
`destroyStreams`. -/
theorem destroyStreams_find_freed (hs : List Nat) :
    ∀ (hp : Heap) (k : Nat) (d : StreamData), k ∈ hs → hp.find k = some d →
      d.mReuse = false → (destroyStreams hp hs).find k = none := by
  induction hs with
  | nil => intro hp k d hk _ _; exact absurd hk (List.not_mem_nil k)
  | cons h t ih =>
    intro hp k d hk hf hr
    have hstep : destroyStreams hp (h :: t) = destroyStreams (destroyStep hp h) t := rfl
    rw [hstep]
    by_cases he : k = h
    · subst he
      have h1 : (destroyStep hp k).find k = none := by
        unfold destroyStep
        rw [hf]
        dsimp only
        rw [hr, if_neg Bool.false_ne_true]
        exact find_free_self hp k
      exact destroyStreams_find_none _ t k h1
    · have hm : k ∈ t := by
        rcases List.mem_cons.mp hk with h' | h'
        · exact absurd h' he
        · exact h'
      exact ih (destroyStep hp h) k d hm
        (by rw [destroyStep_find_other hp h k he]; exact hf) hr

/-! ### Claim theorems: validator, null/empty rejection, lifecycle -/

theorem isValidStreamSet_char (ss : List StreamData) :
    isValidStreamSet ss = true ↔
      ss ≠ [] ∧ ss.countP (fun d => d.isInputType) ≤ 1 ∧
        1 ≤ ss.countP (fun d => d.isOutputType) := by
  simp only [isValidStreamSet]
  split_ifs with h1 h2 h3 <;>
    simp_all [List.length_eq_zero]

/-- C4.  The aggregate stream-set validator accepts exactly the sets that
are non-empty, have at most one input-capable stream and at least one
output-capable stream, a bidirectional stream counting toward both tallies;
being a pure function of the list it performs no other check and mutates
nothing. -/
theorem isValidStreamSet_iff (ss : List StreamData) :
    isValidStreamSet ss = true ↔
      ss ≠ [] ∧ ss.countP (fun d => d.isInputType) ≤ 1 ∧
        1 ≤ ss.countP (fun d => d.isOutputType) :=
  isValidStreamSet_char ss

/-- C7.  A `NULL` configuration pointer and an empty descriptor list are
both rejected with `-EINVAL` immediately: the device state is returned
unchanged and the descriptor list is not written to. -/
theorem configureStreams_null_empty (c : Camera) :
    c.configureStreams none = (-EINVAL, c, none) ∧
    c.configureStreams (some []) = (-EINVAL, c, some []) :=
  ⟨rfl, rfl⟩

/-- C8.  `open` on a busy device returns `-EBUSY` and changes nothing, and
otherwise returns 0 and sets the busy flag; `close` on a non-busy device
returns `-EINVAL` and changes nothing, and otherwise returns 0 and clears
the busy flag; consequently a second consecutive `open` always returns
`-EBUSY` and a second consecutive `close` always returns `-EINVAL`. -/
theorem open_close_spec (c : Camera) (m m' : Nat) :
    ({ c with mBusy := true } : Camera).openDevice m =
      (-EBUSY, { c with mBusy := true }) ∧
    (({ c with mBusy := false } : Camera).openDevice m).1 = 0 ∧
    (({ c with mBusy := false } : Camera).openDevice m).2.mBusy = true ∧
    ({ c with mBusy := false } : Camera).closeDevice =
      (-EINVAL, { c with mBusy := false }) ∧
    (({ c with mBusy := true } : Camera).closeDevice).1 = 0 ∧
    (({ c with mBusy := true } : Camera).closeDevice).2.mBusy = false ∧
    ((c.openDevice m).2.openDevice m').1 = -EBUSY ∧
    ((c.closeDevice).2.closeDevice).1 = -EINVAL := by
  cases hb : c.mBusy <;>
    simp [Camera.openDevice, Camera.closeDevice, hb]

/-- C10.  `open`, `close` and `initialize` leave the committed stream set
(`mStreams`, hence `mNumStreams`) and the stream heap untouched; in
particular a committed configuration survives a `close` followed by a
reopen of the device. -/
theorem lifecycle_preserves_streams (c : Camera) (m cb : Nat) :
    (c.openDevice m).2.mStreams = c.mStreams ∧
    (c.openDevice m).2.heap = c.heap ∧
    (c.closeDevice).2.mStreams = c.mStreams ∧
    (c.closeDevice).2.heap = c.heap ∧
    (c.initDevice cb).2.mStreams = c.mStreams ∧
    (c.initDevice cb).2.heap = c.heap ∧
    ((c.closeDevice).2.openDevice m).2.mStreams = c.mStreams ∧
    ((c.closeDevice).2.openDevice m).2.heap = c.heap := by
  cases hb : c.mBusy <;>
    simp [Camera.openDevice, Camera.closeDevice, Camera.initDevice, hb]

/-! ### The fill loop on a resolving descriptor list -/

theorem isValidReuseStream_true (d : StreamData) (id : Int) (a : Camera3Stream)
    (hc : d.isValidReuseStream id a = true) :
    d.mId = id ∧ d.mType = a.stream_type := by
  simp only [StreamData.isValidReuseStream, Bool.and_eq_true,
    decide_eq_true_eq] at hc
  exact hc

theorem streamData_override (d : StreamData) (b b' : Bool) :
    ({ { d with mReuse := b } with mReuse := b' } : StreamData) =
      { d with mReuse := b' } := rfl

theorem streamData_set_self (d : StreamData) (b : Bool) (hr : d.mReuse = b) :
    ({ d with mReuse := b } : StreamData) = d := by
  rw [← hr]

theorem resolvesBelow_tail (camId : Int) (hp : Heap) (N : Nat)
    (a : Camera3Stream) (rest : List Camera3Stream)
    (hres : ResolvesBelow camId hp N (a :: rest)) :
    ResolvesBelow camId hp N rest :=
  fun a' ha' => hres a' (List.mem_cons_of_mem a ha')

theorem resolvesBelow_update (camId : Int) (hp : Heap) (N : Nat)
    (ds : List Camera3Stream) (h₀ : Nat) (d₀ : StreamData) (b : Bool)
    (hf₀ : hp.find h₀ = some d₀)
    (hres : ResolvesBelow camId hp N ds) :
    ResolvesBelow camId (hp.update h₀ { d₀ with mReuse := b }) N ds := by
  intro a ha hpos
  obtain ⟨h, d, hpriv, hf, hc, hlt⟩ := hres a ha hpos
  by_cases he : h = h₀
  · subst he
    rw [hf₀] at hf
    injection hf with hf
    subst hf
    exact ⟨h, { d₀ with mReuse := b }, hpriv, find_update_self hp h _,
      by rw [isValidReuseStream_mReuse]; exact hc, hlt⟩
  · exact ⟨h, d, hpriv,
      by rw [find_update_other hp h₀ h _ he]; exact hf, hc, hlt⟩

theorem resolvesBelow_alloc (camId : Int) (hp : Heap) (N : Nat)
    (ds : List Camera3Stream) (d0 : StreamData)
    (hb : hp.bounded) (hres : ResolvesBelow camId hp N ds) :
    ResolvesBelow camId (hp.alloc d0) N ds := by
  intro a ha hpos
  obtain ⟨h, d, hpriv, hf, hc, hlt⟩ := hres a ha hpos
  have hne : h ≠ hp.next := by
    have := find_some_lt hp h d hb hf
    omega
  exact ⟨h, d, hpriv, by rw [find_alloc_other hp h d0 hne]; exact hf, hc, hlt⟩

theorem fillMatch_mono (camId : Int) (hpF : Heap) :
    ∀ (ds : List Camera3Stream) (hs : List Nat) (n n' : Nat), n ≤ n' →
      FillMatch camId hpF n' ds hs → FillMatch camId hpF n ds hs := by
  intro ds
  induction ds with
  | nil =>
    intro hs n n' _ hm
    cases hs with
    | nil => trivial
    | cons h t => exact absurd hm (by simp [FillMatch])
  | cons a rest ih =>
    intro hs n n' hle hm
    cases hs with
    | nil => exact absurd hm (by simp [FillMatch])
    | cons h t =>
      simp only [FillMatch] at hm ⊢
      obtain ⟨⟨d, hf, h1, h2, h3⟩, htail⟩ := hm
      refine ⟨⟨d, hf, h1, h2, ?_⟩, ih t n n' hle htail⟩
      split_ifs at h3 ⊢ with hpos
      · exact h3
      · exact ⟨Nat.le_trans hle h3.1, h3.2⟩

/-- Main characterization of a fully successful fill loop: given that every
reuse descriptor resolves to a live compatible stream below the pre-call
allocation bound, the loop succeeds, tags the descriptors, returns the
expected handle array, extends the heap by exactly the fresh streams,
flips reuse markers only, and the result satisfies `FillMatch`. -/
theorem fillLoop_ok (camId : Int) (N : Nat) :
    ∀ (ds : List Camera3Stream) (hp : Heap), hp.bounded → N ≤ hp.next →
      ResolvesBelow camId hp N ds →
      ∃ hpF,
        fillLoop camId hp ds =
          FillResult.ok hpF (tagDescs ds (expectedHandles hp.next ds))
            (expectedHandles hp.next ds) ∧
        hpF.next = hp.next + countFresh ds ∧
        hpF.bounded ∧
        (∀ k d, hp.find k = some d →
          ∃ b, hpF.find k = some { d with mReuse := b }) ∧
        (∀ k d, hp.find k = some d → d.mReuse = true → hpF.find k = some d) ∧
        (∀ k d, N ≤ k → hp.find k = some d → hpF.find k = some d) ∧
        FillMatch camId hpF hp.next ds (expectedHandles hp.next ds) := by
  intro ds
  induction ds with
  | nil =>
    intro hp hb _ _
    refine ⟨hp, rfl, by simp [countFresh], hb, ?_, ?_, ?_, trivial⟩
    · intro k d hf
      exact ⟨d.mReuse, by rw [streamData_eta]; exact hf⟩
    · intro k d hf _; exact hf
    · intro k d _ hf; exact hf
  | cons a rest ih =>
    intro hp hb hN hres
    have hresRest := resolvesBelow_tail camId hp N a rest hres
    by_cases hpos : a.max_buffers > 0
    · -- reuse path
      obtain ⟨h₀, d₀, hpriv, hfind, hcompat, hlt⟩ :=
        hres a (List.mem_cons_self a rest) hpos
      obtain ⟨hid, hty⟩ := isValidReuseStream_true d₀ camId a hcompat
      have hb' : (hp.update h₀ { d₀ with mReuse := true }).bounded :=
        bounded_update hp h₀ _ d₀ hb hfind
      have hres' : ResolvesBelow camId
          (hp.update h₀ { d₀ with mReuse := true }) N rest :=
        resolvesBelow_update camId hp N rest h₀ d₀ true hfind hresRest
      obtain ⟨hpF, hfill, hnext, hbF, P3, P4, P5, PM⟩ :=
        ih (hp.update h₀ { d₀ with mReuse := true }) hb' hN hres'
      have hstep : (if a.max_buffers > 0 then reuseStream camId hp a
          else some (hp.next, hp.alloc (newStream camId a))) =
          some (h₀, hp.update h₀ { d₀ with mReuse := true }) := by
        rw [if_pos hpos]
        unfold reuseStream
        rw [hpriv]
        dsimp only
        rw [hfind]
        dsimp only
        rw [if_pos hcompat]
      have hexp : expectedHandles hp.next (a :: rest) =
          h₀ :: expectedHandles hp.next rest := by
        simp [expectedHandles, hpos, hpriv]
      have hcf : countFresh (a :: rest) = countFresh rest := by
        simp [countFresh, hpos]
      refine ⟨hpF, ?_, ?_, hbF, ?_, ?_, ?_, ?_⟩
      · rw [hexp]
        show fillLoop camId hp (a :: rest) = _
        simp only [fillLoop]
        rw [hstep]
        dsimp only
        rw [hfill]
        rfl
      · rw [hcf]
        exact hnext
      · intro k d hf
        by_cases he : k = h₀
        · subst he
          rw [hfind] at hf
          injection hf with hf
          subst hf
          obtain ⟨b, hb1⟩ := P3 k { d₀ with mReuse := true }
            (find_update_self hp k _)
          exact ⟨b, hb1⟩
        · exact P3 k d (by rw [find_update_other hp h₀ k _ he]; exact hf)
      · intro k d hf hr
        by_cases he : k = h₀
        · subst he
          rw [hfind] at hf
          injection hf with hf
          subst hf
          have hval : ({ d₀ with mReuse := true } : StreamData) = d₀ :=
            streamData_set_self d₀ true hr
          have := P4 k { d₀ with mReuse := true } (find_update_self hp k _) rfl
          rw [hval] at this
          exact this
        · exact P4 k d (by rw [find_update_other hp h₀ k _ he]; exact hf) hr
      · intro k d hk hf
        have he : k ≠ h₀ := by omega
        exact P5 k d hk (by rw [find_update_other hp h₀ k _ he]; exact hf)
      · rw [hexp]
        simp only [FillMatch]
        refine ⟨⟨{ d₀ with mReuse := true }, ?_, hid, hty, ?_⟩, PM⟩
        · exact P4 h₀ { d₀ with mReuse := true } (find_update_self hp h₀ _) rfl
        · rw [if_pos hpos]
          exact ⟨hpriv, rfl⟩
    · -- fresh path
      have hb' : (hp.alloc (newStream camId a)).bounded :=
        bounded_alloc hp _ hb
      have hN' : N ≤ (hp.alloc (newStream camId a)).next := by
        show N ≤ hp.next + 1
        omega
      have hres' : ResolvesBelow camId (hp.alloc (newStream camId a)) N rest :=
        resolvesBelow_alloc camId hp N rest _ hb hresRest
      obtain ⟨hpF, hfill, hnext, hbF, P3, P4, P5, PM⟩ :=
        ih (hp.alloc (newStream camId a)) hb' hN' hres'
      have hstep : (if a.max_buffers > 0 then reuseStream camId hp a
          else some (hp.next, hp.alloc (newStream camId a))) =
          some (hp.next, hp.alloc (newStream camId a)) := by
        rw [if_neg hpos]
      have hexp : expectedHandles hp.next (a :: rest) =
          hp.next :: expectedHandles (hp.next + 1) rest := by
        simp [expectedHandles, hpos]
      have hcf : countFresh (a :: rest) = 1 + countFresh rest := by
        simp [countFresh, hpos]
      refine ⟨hpF, ?_, ?_, hbF, ?_, ?_, ?_, ?_⟩
      · rw [hexp]
        show fillLoop camId hp (a :: rest) = _
        simp only [fillLoop]
        rw [hstep]
        dsimp only
        rw [hfill]
        rfl
      · rw [hcf]
        have : (hp.alloc (newStream camId a)).next = hp.next + 1 := rfl
        omega
      · intro k d hf
        have hne : k ≠ hp.next := by
          have := find_some_lt hp k d hb hf
          omega
        exact P3 k d (by rw [find_alloc_other hp k _ hne]; exact hf)
      · intro k d hf hr
        have hne : k ≠ hp.next := by
          have := find_some_lt hp k d hb hf
          omega
        exact P4 k d (by rw [find_alloc_other hp k _ hne]; exact hf) hr
      · intro k d hk hf
        have hne : k ≠ hp.next := by
          have := find_some_lt hp k d hb hf
          omega
        exact P5 k d hk (by rw [find_alloc_other hp k _ hne]; exact hf)
      · rw [hexp]
        simp only [FillMatch]
        refine ⟨⟨newStream camId a, ?_, rfl, rfl, ?_⟩, ?_⟩
        · exact P5 hp.next (newStream camId a) hN (find_alloc_self hp _)
        · rw [if_neg hpos]
          exact ⟨Nat.le_refl hp.next, rfl⟩
        · exact fillMatch_mono camId hpF rest _ hp.next (hp.next + 1)
            (Nat.le_succ hp.next) PM

/-! ### Consequences of `FillMatch`; handle-array arithmetic -/

theorem isInputType_of_mType (d : StreamData) (a : Camera3Stream)
    (h : d.mType = a.stream_type) : d.isInputType = descInput a := by
  unfold StreamData.isInputType descInput
  rw [h]

theorem isOutputType_of_mType (d : StreamData) (a : Camera3Stream)
    (h : d.mType = a.stream_type) : d.isOutputType = descOutput a := by
  unfold StreamData.isOutputType descOutput
  rw [h]

theorem streamUsage_eq_usageForType (d : StreamData) :
    streamUsage d = usageForType d.mType := by
  cases h : d.mType <;>
    simp [streamUsage, usageForType, StreamData.isOutputType,
      StreamData.isInputType, h, Nat.or_zero, Nat.zero_or]

theorem fillMatch_stats (camId : Int) (hpF : Heap) (n0 : Nat) :
    ∀ (ds : List Camera3Stream) (hs : List Nat),
      FillMatch camId hpF n0 ds hs →
      (derefAll hpF hs).length = ds.length ∧
      (derefAll hpF hs).countP (fun d => d.isInputType) =
        ds.countP descInput ∧
      (derefAll hpF hs).countP (fun d => d.isOutputType) =
        ds.countP descOutput := by
  intro ds
  induction ds with
  | nil =>
    intro hs hm
    cases hs with
    | nil => simp [derefAll]
    | cons h t => exact absurd hm (by simp [FillMatch])
  | cons a rest ih =>
    intro hs hm
    cases hs with
    | nil => exact absurd hm (by simp [FillMatch])
    | cons h t =>
      simp only [FillMatch] at hm
      obtain ⟨⟨d, hf, _, hty, _⟩, htail⟩ := hm
      obtain ⟨hl, hin, hout⟩ := ih t htail
      have hd : derefAll hpF (h :: t) = d :: derefAll hpF t := by
        simp [derefAll, hf]
      rw [hd]
      refine ⟨by simp [hl], ?_, ?_⟩
      · simp [List.countP_cons, hin, isInputType_of_mType d a hty]
      · simp [List.countP_cons, hout, isOutputType_of_mType d a hty]

theorem fillMatch_mem (camId : Int) (hpF : Heap) (n0 : Nat) :
    ∀ (ds : List Camera3Stream) (hs : List Nat),
      FillMatch camId hpF n0 ds hs → ∀ h ∈ hs,
      ∃ a d, a ∈ ds ∧ hpF.find h = some d ∧
        ((a.max_buffers > 0 ∧ a.priv = some h ∧ d.mReuse = true) ∨
         (¬ a.max_buffers > 0 ∧ n0 ≤ h ∧ d = newStream camId a)) := by
  intro ds
  induction ds with
  | nil =>
    intro hs hm h hh
    cases hs with
    | nil => exact absurd hh (List.not_mem_nil h)
    | cons x t => exact absurd hm (by simp [FillMatch])
  | cons a rest ih =>
    intro hs hm h hh
    cases hs with
    | nil => exact absurd hm (by simp [FillMatch])
    | cons x t =>
      simp only [FillMatch] at hm
      obtain ⟨⟨d, hf, _, _, hbranch⟩, htail⟩ := hm
      rcases List.mem_cons.mp hh with he | hm'
      · subst he
        refine ⟨a, d, List.mem_cons_self a rest, hf, ?_⟩
        split_ifs at hbranch with hpos
        · exact Or.inl ⟨hpos, hbranch⟩
        · exact Or.inr ⟨hpos, hbranch⟩
      · obtain ⟨a', d', ha', hf', hb'⟩ := ih t htail h hm'
        exact ⟨a', d', List.mem_cons_of_mem a ha', hf', hb'⟩

theorem fillMatch_reuse_desc (camId : Int) (hpF : Heap) (n0 : Nat) :
    ∀ (ds : List Camera3Stream) (hs : List Nat),
      FillMatch camId hpF n0 ds hs → ∀ a ∈ ds, a.max_buffers > 0 →
      ∃ h, a.priv = some h ∧ h ∈ hs ∧
        ∃ d, hpF.find h = some d ∧ d.mReuse = true := by
  intro ds
  induction ds with
  | nil => intro hs _ a ha _; exact absurd ha (List.not_mem_nil a)
  | cons a0 rest ih =>
    intro hs hm a ha hpos
    cases hs with
    | nil => exact absurd hm (by simp [FillMatch])
    | cons x t =>
      simp only [FillMatch] at hm
      obtain ⟨⟨d, hf, _, _, hbranch⟩, htail⟩ := hm
      rcases List.mem_cons.mp ha with he | hm'
      · subst he
        rw [if_pos hpos] at hbranch
        exact ⟨x, hbranch.1, List.mem_cons_self x t, d, hf, hbranch.2⟩
      · obtain ⟨h, hpriv, hht, hd⟩ := ih t htail a hm' hpos
        exact ⟨h, hpriv, List.mem_cons_of_mem x hht, hd⟩

theorem expectedHandles_length :
    ∀ (ds : List Camera3Stream) (n : Nat),
      (expectedHandles n ds).length = ds.length := by
  intro ds
  induction ds with
  | nil => intro n; rfl
  | cons a rest ih =>
    intro n
    unfold expectedHandles
    split_ifs <;> simp [ih]

theorem mem_expectedHandles :
    ∀ (ds : List Camera3Stream) (n k : Nat), k ∈ expectedHandles n ds →
      n ≤ k ∨ ∃ a ∈ ds, a.max_buffers > 0 ∧ a.priv.getD 0 = k := by
  intro ds
  induction ds with
  | nil => intro n k hk; exact absurd hk (List.not_mem_nil k)
  | cons a rest ih =>
    intro n k hk
    unfold expectedHandles at hk
    split_ifs at hk with hpos
    · rcases List.mem_cons.mp hk with he | hm
      · exact Or.inr ⟨a, List.mem_cons_self a rest, hpos, he.symm⟩
      · rcases ih n k hm with hle | ⟨a', ha', h1, h2⟩
        · exact Or.inl hle
        · exact Or.inr ⟨a', List.mem_cons_of_mem a ha', h1, h2⟩
    · rcases List.mem_cons.mp hk with he | hm
      · exact Or.inl (Nat.le_of_eq he.symm)
      · rcases ih (n + 1) k hm with hle | ⟨a', ha', h1, h2⟩
        · exact Or.inl (by omega)
        · exact Or.inr ⟨a', List.mem_cons_of_mem a ha', h1, h2⟩

theorem fresh_mem_expectedHandles :
    ∀ (ds : List Camera3Stream) (n k : Nat), n ≤ k →
      k < n + countFresh ds → k ∈ expectedHandles n ds := by
  intro ds
  induction ds with
  | nil =>
    intro n k hle hlt
    simp [countFresh] at hlt
    omega
  | cons a rest ih =>
    intro n k hle hlt
    unfold expectedHandles
    by_cases hpos : a.max_buffers > 0
    · rw [if_pos hpos]
      refine List.mem_cons_of_mem _ (ih n k hle ?_)
      simp only [countFresh, if_pos hpos] at hlt
      omega
    · rw [if_neg hpos]
      by_cases he : k = n
      · exact he ▸ List.mem_cons_self n _
      · refine List.mem_cons_of_mem _ (ih (n + 1) k (by omega) ?_)
        simp only [countFresh, if_neg hpos] at hlt
        omega

theorem tagsMatch_tagDescs :
    ∀ (ds : List Camera3Stream) (hs : List Nat), ds.length = hs.length →
      TagsMatch ds (tagDescs ds hs) hs := by
  intro ds
  induction ds with
  | nil =>
    intro hs hl
    cases hs with
    | nil => trivial
    | cons x t => simp at hl
  | cons a rest ih =>
    intro hs hl
    cases hs with
    | nil => simp at hl
    | cons x t =>
      simp only [tagDescs, List.zipWith_cons_cons, TagsMatch]
      exact ⟨trivial, ih t (by simpa using hl)⟩

/-! ### From `FillMatch` to the committed state of a successful call -/

theorem setupData_mReuse (d : StreamData) : (setupData d).mReuse = d.mReuse := rfl

theorem setupData_mId (d : StreamData) : (setupData d).mId = d.mId := rfl

theorem setupData_mType (d : StreamData) : (setupData d).mType = d.mType := rfl

theorem setupData_mMaxBuffers (d : StreamData) :
    (setupData d).mMaxBuffers = 1 := rfl

theorem setupData_mUsage (d : StreamData) :
    (setupData d).mUsage = streamUsage d := rfl

theorem live_lt_next (hp : Heap) (h : Nat) (hb : hp.bounded)
    (hl : hp.find h ≠ none) : h < hp.next := by
  cases hf : hp.find h with
  | none => exact absurd hf hl
  | some d => exact find_some_lt hp h d hb hf

theorem fillMatch_to_streamsMatch (camId : Int) (hpF : Heap) (n0 : Nat)
    (hsFull old : List Nat) (hpOld : Heap)
    (hOldNone : ∀ k, n0 ≤ k → hpOld.find k = none)
    (hOldLt : ∀ h ∈ old, h < n0) :
    ∀ (ds : List Camera3Stream) (hs : List Nat),
      FillMatch camId hpF n0 ds hs → (∀ x ∈ hs, x ∈ hsFull) →
      StreamsMatch camId (destroyStreams (setupStreams hpF hsFull) old)
        hpOld ds hs := by
  intro ds
  induction ds with
  | nil =>
    intro hs hm _
    cases hs with
    | nil => trivial
    | cons x t => exact absurd hm (by simp [FillMatch])
  | cons a rest ih =>
    intro hs hm hsub
    cases hs with
    | nil => exact absurd hm (by simp [FillMatch])
    | cons h t =>
      simp only [FillMatch] at hm
      obtain ⟨⟨d, hf, hid, hty, hbranch⟩, htail⟩ := hm
      have hmemFull : h ∈ hsFull := hsub h (List.mem_cons_self h t)
      have hsetup : (setupStreams hpF hsFull).find h = some (setupData d) :=
        setupStreams_find_mem hsFull hpF h d hmemFull hf
      simp only [StreamsMatch]
      refine ⟨?_, ih t htail (fun x hx => hsub x (List.mem_cons_of_mem h hx))⟩
      split_ifs at hbranch with hpos
      · -- reuse position: the stream survives destruction, marked reused
        have hr : (setupData d).mReuse = true := by
          rw [setupData_mReuse]; exact hbranch.2
        have hdest := destroyStreams_find_reuse old
          (setupStreams hpF hsFull) h (setupData d) hsetup hr
        refine ⟨setupData d, hdest, by rw [setupData_mId]; exact hid,
          by rw [setupData_mType]; exact hty, setupData_mMaxBuffers d, ?_, ?_⟩
        · rw [setupData_mUsage, streamUsage_eq_usageForType, hty]
        · rw [if_pos hpos]
          exact ⟨hbranch.1, hr⟩
      · -- fresh position: handle is new, survives destruction of old set
        have hnotold : h ∉ old := by
          intro hmem
          have := hOldLt h hmem
          have := hbranch.1
          omega
        have hdest : (destroyStreams (setupStreams hpF hsFull) old).find h =
            some (setupData d) := by
          rw [destroyStreams_find_not_mem _ old h hnotold]
          exact hsetup
        refine ⟨setupData d, hdest, by rw [setupData_mId]; exact hid,
          by rw [setupData_mType]; exact hty, setupData_mMaxBuffers d, ?_, ?_⟩
        · rw [setupData_mUsage, streamUsage_eq_usageForType, hty]
        · rw [if_neg hpos]
          refine ⟨hOldNone h hbranch.1, ?_⟩
          rw [setupData_mReuse, hbranch.2]
          rfl

theorem fillMatch_to_outsMatch (camId : Int) (hpF : Heap) (n0 : Nat)
    (hsFull : List Nat) :
    ∀ (ds : List Camera3Stream) (hs : List Nat),
      FillMatch camId hpF n0 ds hs → (∀ x ∈ hs, x ∈ hsFull) →
      OutsMatch ds (setupDescs (setupStreams hpF hsFull) (tagDescs ds hs) hs)
        hs := by
  intro ds
  induction ds with
  | nil =>
    intro hs hm _
    cases hs with
    | nil => trivial
    | cons x t => exact absurd hm (by simp [FillMatch])
  | cons a rest ih =>
    intro hs hm hsub
    cases hs with
    | nil => exact absurd hm (by simp [FillMatch])
    | cons h t =>
      simp only [FillMatch] at hm
      obtain ⟨⟨d, hf, _, hty, _⟩, htail⟩ := hm
      have hmemFull : h ∈ hsFull := hsub h (List.mem_cons_self h t)
      have hsetup : (setupStreams hpF hsFull).find h = some (setupData d) :=
        setupStreams_find_mem hsFull hpF h d hmemFull hf
      have husage : streamUsage d = usageForType a.stream_type := by
        rw [streamUsage_eq_usageForType, hty]
      simp only [tagDescs, setupDescs, List.zipWith_cons_cons, hsetup,
        OutsMatch]
      refine ⟨?_, ?_⟩
      · rw [setupData_mUsage, husage, setupData_mMaxBuffers]
      · have := ih t htail (fun x hx => hsub x (List.mem_cons_of_mem h hx))
        simpa [tagDescs, setupDescs] using this

theorem streamsMatch_live (camId : Int) (hp hpOld : Heap) :
    ∀ (ds : List Camera3Stream) (hs : List Nat),
      StreamsMatch camId hp hpOld ds hs → ∀ h ∈ hs, hp.find h ≠ none := by
  intro ds
  induction ds with
  | nil =>
    intro hs hm h hh
    cases hs with
    | nil => exact absurd hh (List.not_mem_nil h)
    | cons x t => exact absurd hm (by simp [StreamsMatch])
  | cons a rest ih =>
    intro hs hm h hh
    cases hs with
    | nil => exact absurd hm (by simp [StreamsMatch])
    | cons x t =>
      simp only [StreamsMatch] at hm
      obtain ⟨⟨d, hf, _⟩, htail⟩ := hm
      rcases List.mem_cons.mp hh with he | hm'
      · subst he
        rw [hf]
        exact Option.noConfusion
      · exact ih t htail h hm'

/-- Master characterization of a successful `configureStreams` transaction,
from which the claim theorems about the success path follow.  Hypotheses:
the heap is well formed, the committed handles are live, every reuse
descriptor resolves to a live compatible stream, and the descriptor types
satisfy the aggregate constraint. -/
theorem configure_ok_main (c : Camera) (ds : List Camera3Stream)
    (hne : ds ≠ [])
    (hb : c.heap.bounded)
    (hlive : ∀ h ∈ c.mStreams, c.heap.find h ≠ none)
    (hres : ∀ a ∈ ds, a.max_buffers > 0 →
      ∃ h d, a.priv = some h ∧ c.heap.find h = some d ∧
        d.isValidReuseStream c.mId a = true)
    (hin : ds.countP descInput ≤ 1)
    (hout : 1 ≤ ds.countP descOutput) :
    ∃ c' os,
      c.configureStreams (some ds) = (0, c', some os) ∧
      c'.mId = c.mId ∧ c'.mBusy = c.mBusy ∧
      c'.mModule = c.mModule ∧ c'.mCallbackOps = c.mCallbackOps ∧
      c'.mStreams = expectedHandles c.heap.next ds ∧
      c'.heap.next = c.heap.next + countFresh ds ∧
      c'.heap.bounded ∧
      StreamsMatch c.mId c'.heap c.heap ds c'.mStreams ∧
      OutsMatch ds os c'.mStreams := by
  have hlen : ¬ ds.length = 0 := by
    simpa [List.length_eq_zero] using hne
  have hb0 : (clearReuse c.heap c.mStreams).bounded :=
    clearReuse_bounded c.heap c.mStreams hb
  have hn0 : (clearReuse c.heap c.mStreams).next = c.heap.next :=
    clearReuse_next c.heap c.mStreams
  have hres0 : ResolvesBelow c.mId (clearReuse c.heap c.mStreams)
      c.heap.next ds := by
    intro a ha hpos
    obtain ⟨h, d, hpriv, hf, hc⟩ := hres a ha hpos
    obtain ⟨b, hb1⟩ := clearReuse_find_some c.heap c.mStreams h d hf
    exact ⟨h, { d with mReuse := b }, hpriv, hb1,
      by rw [isValidReuseStream_mReuse]; exact hc,
      find_some_lt c.heap h d hb hf⟩
  obtain ⟨hpF, hfill, hnext, hbF, P3, P4, P5, PM⟩ :=
    fillLoop_ok c.mId c.heap.next ds (clearReuse c.heap c.mStreams) hb0
      (Nat.le_of_eq hn0.symm) hres0
  rw [hn0] at hfill hnext PM
  have hstats := fillMatch_stats c.mId hpF c.heap.next ds
    (expectedHandles c.heap.next ds) PM
  have hvalidB : isValidStreamSet
      (derefAll hpF (expectedHandles c.heap.next ds)) = true := by
    rw [isValidStreamSet_char]
    refine ⟨?_, ?_, ?_⟩
    · intro hnil
      have hl := hstats.1
      rw [hnil] at hl
      simp at hl
      exact hlen hl.symm
    · rw [hstats.2.1]; exact hin
    · rw [hstats.2.2]; exact hout
  refine ⟨{ c with
      heap := destroyStreams
        (setupStreams hpF (expectedHandles c.heap.next ds)) c.mStreams,
      mStreams := expectedHandles c.heap.next ds },
    setupDescs (setupStreams hpF (expectedHandles c.heap.next ds))
      (tagDescs ds (expectedHandles c.heap.next ds))
      (expectedHandles c.heap.next ds),
    ?_, rfl, rfl, rfl, rfl, rfl, ?_, ?_, ?_, ?_⟩
  · show c.configureStreams (some ds) = _
    simp only [Camera.configureStreams]
    rw [if_neg hlen, hfill]
    dsimp only
    rw [hvalidB]
    rfl
  · show (destroyStreams
        (setupStreams hpF (expectedHandles c.heap.next ds)) c.mStreams).next =
      c.heap.next + countFresh ds
    rw [destroyStreams_next, setupStreams_next]
    exact hnext
  · exact destroyStreams_bounded _ _ (setupStreams_bounded _ _ hbF)
  · exact fillMatch_to_streamsMatch c.mId hpF c.heap.next
      (expectedHandles c.heap.next ds) c.mStreams c.heap hb
      (fun h hm => live_lt_next c.heap h hb (hlive h hm)) ds
      (expectedHandles c.heap.next ds) PM (fun x hx => hx)
  · exact fillMatch_to_outsMatch c.mId hpF c.heap.next
      (expectedHandles c.heap.next ds) ds
      (expectedHandles c.heap.next ds) PM (fun x hx => hx)

/-- C1.  For every non-empty descriptor list (on a well-formed device state)
whose candidate set has at most one input-capable and at least one
output-capable stream, every reuse descriptor resolving to a live compatible
stream, `configureStreams` returns 0 and the committed set afterwards is
exactly the candidate set: at each reuse index the identical stream (the
handle the descriptor carried), at each fresh index a newly constructed
stream bound to this device that did not exist before the call. -/
theorem configureStreams_success (c : Camera) (ds : List Camera3Stream)
    (hne : ds ≠ [])
    (hb : c.heap.bounded)
    (hlive : ∀ h ∈ c.mStreams, c.heap.find h ≠ none)
    (hres : ∀ a ∈ ds, a.max_buffers > 0 →
      ∃ h d, a.priv = some h ∧ c.heap.find h = some d ∧
        d.isValidReuseStream c.mId a = true)
    (hin : ds.countP descInput ≤ 1)
    (hout : 1 ≤ ds.countP descOutput) :
    ∃ c' os,
      c.configureStreams (some ds) = (0, c', some os) ∧
      c'.mStreams.length = ds.length ∧
      StreamsMatch c.mId c'.heap c.heap ds c'.mStreams := by
  obtain ⟨c', os, heq, _, _, _, _, hstr, _, _, hsm, _⟩ :=
    configure_ok_main c ds hne hb hlive hres hin hout
  exact ⟨c', os, heq, by rw [hstr, expectedHandles_length], hsm⟩

/-- C5.  `setupStreams` assigns to every stream of the candidate array a
usage bitmask built additively from its capabilities — software-write plus
hardware-camera-write when output-capable, software-read plus
hardware-camera-read when input-capable, both groups for a bidirectional
stream — and a max in-flight buffer count of exactly 1, regardless of type.
Being a total function it introduces no failure path. -/
theorem setupStreams_spec (hp : Heap) (hs : List Nat) (h : Nat)
    (d : StreamData) (hmem : h ∈ hs) (hfind : hp.find h = some d) :
    (setupStreams hp hs).find h =
      some { d with
        mUsage :=
          (if d.isOutputType then
            GRALLOC_USAGE_SW_WRITE_OFTEN ||| GRALLOC_USAGE_HW_CAMERA_WRITE
          else 0) |||
          (if d.isInputType then
            GRALLOC_USAGE_SW_READ_OFTEN ||| GRALLOC_USAGE_HW_CAMERA_READ
          else 0),
        mMaxBuffers := 1 } :=
  setupStreams_find_mem hs hp h d hmem hfind

/-! ### The fill loop on a failing descriptor list -/

theorem fillLoop_append (camId : Int) :
    ∀ (pre : List Camera3Stream) (hp hpP : Heap) (tag : List Camera3Stream)
      (hs : List Nat) (rest : List Camera3Stream),
      fillLoop camId hp pre = FillResult.ok hpP tag hs →
      fillLoop camId hp (pre ++ rest) =
        match fillLoop camId hpP rest with
        | FillResult.ok hp2 ds2 hs2 => FillResult.ok hp2 (tag ++ ds2) (hs ++ hs2)
        | FillResult.fail hp2 done r hs2 =>
            FillResult.fail hp2 (tag ++ done) r (hs ++ hs2) := by
  intro pre
  induction pre with
  | nil =>
    intro hp hpP tag hs rest hok
    have hok' : FillResult.ok hp ([] : List Camera3Stream) ([] : List Nat) =
        FillResult.ok hpP tag hs := hok
    injection hok' with h1 h2 h3
    subst h1; subst h2; subst h3
    rw [List.nil_append]
    cases hfr : fillLoop camId hp rest <;> simp

  | cons a pre' ih =>
    intro hp hpP tag hs rest hok
    rw [List.cons_append]
    simp only [fillLoop] at hok ⊢
    cases hstep : (if a.max_buffers > 0 then reuseStream camId hp a
        else some (hp.next, hp.alloc (newStream camId a))) with
    | none =>
      rw [hstep] at hok
      simp at hok
    | some pr =>
      obtain ⟨h, hp'⟩ := pr
      rw [hstep] at hok
      dsimp only at hok ⊢
      cases hfr : fillLoop camId hp' pre' with
      | ok hp1 t1 h1 =>
        rw [hfr] at hok
        injection hok with e1 e2 e3
        subst e1; subst e2; subst e3
        rw [ih hp' hp1 t1 h1 rest hfr]
        cases hfr2 : fillLoop camId hp1 rest <;> simp
      | fail hp1 d1 r1 h1 =>
        rw [hfr] at hok
        simp at hok

theorem fillLoop_fail_one (camId : Int) (hp : Heap) (a : Camera3Stream)
    (post : List Camera3Stream) (h : Nat) (d : StreamData)
    (hpos : a.max_buffers > 0) (hpriv : a.priv = some h)
    (hfind : hp.find h = some d)
    (hc : d.isValidReuseStream camId a = false) :
    fillLoop camId hp (a :: post) = FillResult.fail hp [] (a :: post) [] := by
  have hru : reuseStream camId hp a = none := by
    unfold reuseStream
    rw [hpriv]
    dsimp only
    rw [hfind]
    dsimp only
    rw [if_neg (by rw [hc]; exact Bool.false_ne_true)]
  simp only [fillLoop]
  rw [if_pos hpos, hru]

/-- Shared description of an aborted transaction's cleanup: after
`destroyStreams` over the candidate array, every handle at or above the
pre-call allocation bound is dead (all freshly created candidates are
freed), every pre-call entry survives with at most its reuse marker
changed, and every reuse target survives with its reuse marker set. -/
theorem err_heap_props (camId : Int) (hpOld : Heap) (old : List Nat)
    (ds' : List Camera3Stream)
    (hb : hpOld.bounded)
    (hres : ∀ a ∈ ds', a.max_buffers > 0 →
      ∃ h d, a.priv = some h ∧ hpOld.find h = some d ∧
        d.isValidReuseStream camId a = true) :
    ∃ hpF,
      fillLoop camId (clearReuse hpOld old) ds' =
        FillResult.ok hpF (tagDescs ds' (expectedHandles hpOld.next ds'))
          (expectedHandles hpOld.next ds') ∧
      ((derefAll hpF (expectedHandles hpOld.next ds')).length = ds'.length ∧
       (derefAll hpF (expectedHandles hpOld.next ds')).countP
          (fun d => d.isInputType) = ds'.countP descInput ∧
       (derefAll hpF (expectedHandles hpOld.next ds')).countP
          (fun d => d.isOutputType) = ds'.countP descOutput) ∧
      (∀ k, hpOld.next ≤ k →
        (destroyStreams hpF (expectedHandles hpOld.next ds')).find k = none) ∧
      (∀ h d, hpOld.find h = some d →
        ∃ b, (destroyStreams hpF (expectedHandles hpOld.next ds')).find h =
          some { d with mReuse := b }) ∧
      (∀ a ∈ ds', a.max_buffers > 0 →
        ∃ h d, a.priv = some h ∧ hpOld.find h = some d ∧
          (destroyStreams hpF (expectedHandles hpOld.next ds')).find h =
            some { d with mReuse := true }) := by
  have hb0 : (clearReuse hpOld old).bounded := clearReuse_bounded hpOld old hb
  have hn0 : (clearReuse hpOld old).next = hpOld.next :=
    clearReuse_next hpOld old
  have hres0 : ResolvesBelow camId (clearReuse hpOld old) hpOld.next ds' := by
    intro a ha hpos
    obtain ⟨h, d, hpriv, hf, hc⟩ := hres a ha hpos
    obtain ⟨b, hb1⟩ := clearReuse_find_some hpOld old h d hf
    exact ⟨h, { d with mReuse := b }, hpriv, hb1,
      by rw [isValidReuseStream_mReuse]; exact hc,
      find_some_lt hpOld h d hb hf⟩
  obtain ⟨hpF, hfill, hnext, hbF, P3, P4, P5, PM⟩ :=
    fillLoop_ok camId hpOld.next ds' (clearReuse hpOld old) hb0
      (Nat.le_of_eq hn0.symm) hres0
  rw [hn0] at hfill hnext PM
  have hstats := fillMatch_stats camId hpF hpOld.next ds'
    (expectedHandles hpOld.next ds') PM
  refine ⟨hpF, hfill, hstats, ?_, ?_, ?_⟩
  · intro k hk
    by_cases hlt : k < hpF.next
    · have hkmem : k ∈ expectedHandles hpOld.next ds' :=
        fresh_mem_expectedHandles ds' hpOld.next k hk (by omega)
    -- the handle is a fresh candidate: a reuse target would be live
    -- before the call, hence below the bound
      obtain ⟨a, d', ha, hf', hbr⟩ :=
        fillMatch_mem camId hpF hpOld.next ds'
          (expectedHandles hpOld.next ds') PM k hkmem
      rcases hbr with ⟨hpos, hpriv, _⟩ | ⟨_, _, hd'⟩
      · obtain ⟨h2, d2, hpriv2, hf2, _⟩ := hres a ha hpos
        rw [hpriv] at hpriv2
        injection hpriv2 with he
        subst he
        have := find_some_lt hpOld k d2 hb hf2
        omega
      · refine destroyStreams_find_freed _ hpF k d' hkmem hf' ?_
        rw [hd']
        rfl
    · exact destroyStreams_find_none hpF _ k (hbF k (by omega))
  · intro h d hf
    obtain ⟨b0, hb1⟩ := clearReuse_find_some hpOld old h d hf
    obtain ⟨b1, hb2⟩ := P3 h { d with mReuse := b0 } hb1
    rw [streamData_override] at hb2
    by_cases hm : h ∈ expectedHandles hpOld.next ds'
    · obtain ⟨a, d', ha, hf', hbr⟩ :=
        fillMatch_mem camId hpF hpOld.next ds' _ PM h hm
      rcases hbr with ⟨_, _, hrt⟩ | ⟨_, hge, _⟩
      · rw [hb2] at hf'
        injection hf' with he
        have hb1true : b1 = true := by
          rw [← he] at hrt
          exact hrt
        refine ⟨b1, destroyStreams_find_reuse _ hpF h _ hb2 ?_⟩
        show b1 = true
        exact hb1true
      · have := find_some_lt hpOld h d hb hf
        omega
    · exact ⟨b1, by
        rw [destroyStreams_find_not_mem hpF _ h hm]; exact hb2⟩
  · intro a ha hpos
    obtain ⟨h, d, hpriv, hf, hc⟩ := hres a ha hpos
    obtain ⟨b0, hb1⟩ := clearReuse_find_some hpOld old h d hf
    obtain ⟨b1, hb2⟩ := P3 h { d with mReuse := b0 } hb1
    rw [streamData_override] at hb2
    obtain ⟨h2, hpriv2, hmem, d'', hf'', hrt⟩ :=
      fillMatch_reuse_desc camId hpF hpOld.next ds' _ PM a ha hpos
    rw [hpriv] at hpriv2
    injection hpriv2 with he
    subst he
    rw [hb2] at hf''
    injection hf'' with he2
    have hb1true : b1 = true := by
      rw [← he2] at hrt
      exact hrt
    subst hb1true
    exact ⟨h, d, hpriv, hf,
      destroyStreams_find_reuse _ hpF h _ hb2 rfl⟩

/-- Master characterization of a transaction aborted by the aggregate
validator: the fill loop completes (every reuse descriptor resolves), the
candidate set fails the input/output count rule, and `configureStreams`
rolls back: status `-EINVAL`, committed array untouched, fresh candidates
freed, pre-existing streams preserved up to their reuse marker. -/
theorem configure_invalid_main (c : Camera) (ds : List Camera3Stream)
    (hne : ds ≠ [])
    (hb : c.heap.bounded)
    (hres : ∀ a ∈ ds, a.max_buffers > 0 →
      ∃ h d, a.priv = some h ∧ c.heap.find h = some d ∧
        d.isValidReuseStream c.mId a = true)
    (hbad : ds.countP descOutput = 0 ∨ 2 ≤ ds.countP descInput) :
    ∃ cE,
      c.configureStreams (some ds) =
        (-EINVAL, cE,
          some (tagDescs ds (expectedHandles c.heap.next ds))) ∧
      cE.mStreams = c.mStreams ∧ cE.mId = c.mId ∧ cE.mBusy = c.mBusy ∧
      cE.mModule = c.mModule ∧ cE.mCallbackOps = c.mCallbackOps ∧
      (∀ k, c.heap.next ≤ k → cE.heap.find k = none) ∧
      (∀ h d, c.heap.find h = some d →
        ∃ b, cE.heap.find h = some { d with mReuse := b }) ∧
      (∀ a ∈ ds, a.max_buffers > 0 →
        ∃ h d, a.priv = some h ∧ c.heap.find h = some d ∧
          cE.heap.find h = some { d with mReuse := true }) := by
  have hlen : ¬ ds.length = 0 := by
    simpa [List.length_eq_zero] using hne
  obtain ⟨hpF, hfill, hstats, Ea, Eb, Ec⟩ :=
    err_heap_props c.mId c.heap c.mStreams ds hb hres
  have hvF : isValidStreamSet
      (derefAll hpF (expectedHandles c.heap.next ds)) = false := by
    rw [Bool.eq_false_iff]
    intro hT
    rw [isValidStreamSet_char] at hT
    obtain ⟨_, hin2, hout2⟩ := hT
    rw [hstats.2.1] at hin2
    rw [hstats.2.2] at hout2
    rcases hbad with hb1 | hb1 <;> omega
  refine ⟨{ c with heap := destroyStreams hpF (expectedHandles c.heap.next ds) },
    ?_, rfl, rfl, rfl, rfl, rfl, Ea, Eb, Ec⟩
  show c.configureStreams (some ds) = _
  simp only [Camera.configureStreams]
  rw [if_neg hlen, hfill]
  dsimp only
  rw [hvF]
  rfl

/-- Master characterization of a transaction aborted by a reuse mismatch:
the descriptors of the initial segment all resolve, the offending
descriptor signals reuse of a live stream that fails the compatibility
check, and `configureStreams` aborts: status `-EINVAL`, committed array
untouched, fresh candidates freed, pre-existing streams preserved up to
their reuse marker, the processed initial segment left tagged and the
remainder untouched. -/
theorem configure_mismatch_main (c : Camera) (pre : List Camera3Stream)
    (aK : Camera3Stream) (post : List Camera3Stream)
    (hb : c.heap.bounded)
    (hresPre : ∀ a ∈ pre, a.max_buffers > 0 →
      ∃ h d, a.priv = some h ∧ c.heap.find h = some d ∧
        d.isValidReuseStream c.mId a = true)
    (hposK : aK.max_buffers > 0)
    (hK : ∃ h d, aK.priv = some h ∧ c.heap.find h = some d ∧
      d.isValidReuseStream c.mId aK = false) :
    ∃ cE,
      c.configureStreams (some (pre ++ aK :: post)) =
        (-EINVAL, cE,
          some (tagDescs pre (expectedHandles c.heap.next pre) ++
            (aK :: post))) ∧
      cE.mStreams = c.mStreams ∧ cE.mId = c.mId ∧ cE.mBusy = c.mBusy ∧
      cE.mModule = c.mModule ∧ cE.mCallbackOps = c.mCallbackOps ∧
      TagsMatch pre (tagDescs pre (expectedHandles c.heap.next pre))
        (expectedHandles c.heap.next pre) ∧
      (∀ k, c.heap.next ≤ k → cE.heap.find k = none) ∧
      (∀ h d, c.heap.find h = some d →
        ∃ b, cE.heap.find h = some { d with mReuse := b }) := by
  have hlen : ¬ (pre ++ aK :: post).length = 0 := by
    simp
  obtain ⟨hpF, hfill, hstats, Ea, Eb, Ec⟩ :=
    err_heap_props c.mId c.heap c.mStreams pre hb hresPre
  -- the offending descriptor still fails against the filled heap
  obtain ⟨hK1, dK, hKpriv, hKfind, hKc⟩ := hK
  obtain ⟨bK, hKb1⟩ := clearReuse_find_some c.heap c.mStreams hK1 dK hKfind
  -- transport the failing lookup through the processed initial segment
  have hb0 : (clearReuse c.heap c.mStreams).bounded :=
    clearReuse_bounded c.heap c.mStreams hb
  have hKb2 : ∃ b, hpF.find hK1 = some { dK with mReuse := b } := by
    obtain ⟨hpF', hfill', _, _, P3', _, _, _⟩ :=
      fillLoop_ok c.mId c.heap.next pre (clearReuse c.heap c.mStreams) hb0
        (Nat.le_of_eq (clearReuse_next c.heap c.mStreams).symm)
        (by
          intro a ha hpos
          obtain ⟨h, d, hpriv, hf, hc⟩ := hresPre a ha hpos
          obtain ⟨b, hb1⟩ := clearReuse_find_some c.heap c.mStreams h d hf
          exact ⟨h, { d with mReuse := b }, hpriv, hb1,
            by rw [isValidReuseStream_mReuse]; exact hc,
            find_some_lt c.heap h d hb hf⟩)
    rw [clearReuse_next c.heap c.mStreams] at hfill'
    rw [hfill'] at hfill
    injection hfill with e1 e2 e3
    subst e1
    obtain ⟨b, hbx⟩ := P3' hK1 { dK with mReuse := bK } hKb1
    rw [streamData_override] at hbx
    exact ⟨b, hbx⟩
  obtain ⟨bK2, hKb3⟩ := hKb2
  have hKfail : fillLoop c.mId hpF (aK :: post) =
      FillResult.fail hpF [] (aK :: post) [] :=
    fillLoop_fail_one c.mId hpF aK post hK1 { dK with mReuse := bK2 }
      hposK hKpriv hKb3 (by rw [isValidReuseStream_mReuse]; exact hKc)
  have happ := fillLoop_append c.mId pre (clearReuse c.heap c.mStreams) hpF
    (tagDescs pre (expectedHandles c.heap.next pre))
    (expectedHandles c.heap.next pre) (aK :: post) hfill
  rw [hKfail] at happ
  dsimp only at happ
  refine ⟨{ c with heap := destroyStreams hpF (expectedHandles c.heap.next pre) },
    ?_, rfl, rfl, rfl, rfl, rfl,
    tagsMatch_tagDescs pre (expectedHandles c.heap.next pre)
      (expectedHandles_length pre c.heap.next).symm,
    Ea, Eb⟩
  show c.configureStreams (some (pre ++ aK :: post)) = _
  simp only [Camera.configureStreams]
  rw [if_neg hlen, happ]
  simp

/-! ### Properties of the returned descriptor list of a successful call -/

theorem outsMatch_length :
    ∀ (ds os : List Camera3Stream) (hs : List Nat), OutsMatch ds os hs →
      os.length = ds.length ∧ hs.length = ds.length := by
  intro ds
  induction ds with
  | nil =>
    intro os hs hm
    cases os with
    | nil =>
      cases hs with
      | nil => exact ⟨rfl, rfl⟩
      | cons x t => exact absurd hm (by simp [OutsMatch])
    | cons o t => exact absurd hm (by cases hs <;> simp [OutsMatch])
  | cons a rest ih =>
    intro os hs hm
    cases os with
    | nil => exact absurd hm (by cases hs <;> simp [OutsMatch])
    | cons o t =>
      cases hs with
      | nil => exact absurd hm (by simp [OutsMatch])
      | cons h u =>
        simp only [OutsMatch] at hm
        obtain ⟨_, htail⟩ := hm
        obtain ⟨h1, h2⟩ := ih t u htail
        exact ⟨by simp [h1], by simp [h2]⟩

theorem outsMatch_max_buffers :
    ∀ (ds os : List Camera3Stream) (hs : List Nat), OutsMatch ds os hs →
      ∀ o ∈ os, o.max_buffers = 1 := by
  intro ds
  induction ds with
  | nil =>
    intro os hs hm o ho
    cases os with
    | nil => exact absurd ho (List.not_mem_nil o)
    | cons x t => exact absurd hm (by cases hs <;> simp [OutsMatch])
  | cons a rest ih =>
    intro os hs hm o ho
    cases os with
    | nil => exact absurd ho (List.not_mem_nil o)
    | cons x t =>
      cases hs with
      | nil => exact absurd hm (by simp [OutsMatch])
      | cons h u =>
        simp only [OutsMatch] at hm
        rcases List.mem_cons.mp ho with he | hm'
        · subst he
          rw [hm.1]
        · exact ih t u hm.2 o hm'

theorem outsMatch_expected :
    ∀ (ds os : List Camera3Stream) (hs : List Nat), OutsMatch ds os hs →
      ∀ n, expectedHandles n os = hs := by
  intro ds
  induction ds with
  | nil =>
    intro os hs hm n
    cases os with
    | nil =>
      cases hs with
      | nil => rfl
      | cons x t => exact absurd hm (by simp [OutsMatch])
    | cons o t => exact absurd hm (by cases hs <;> simp [OutsMatch])
  | cons a rest ih =>
    intro os hs hm n
    cases os with
    | nil => exact absurd hm (by cases hs <;> simp [OutsMatch])
    | cons o t =>
      cases hs with
      | nil => exact absurd hm (by simp [OutsMatch])
      | cons h u =>
        simp only [OutsMatch] at hm
        rw [hm.1]
        unfold expectedHandles
        rw [if_pos (by norm_num)]
        simp only [Option.getD_some]
        rw [ih t u hm.2 n]

theorem outsMatch_countFresh :
    ∀ (ds os : List Camera3Stream) (hs : List Nat), OutsMatch ds os hs →
      countFresh os = 0 := by
  intro ds
  induction ds with
  | nil =>
    intro os hs hm
    cases os with
    | nil => rfl
    | cons o t => exact absurd hm (by cases hs <;> simp [OutsMatch])
  | cons a rest ih =>
    intro os hs hm
    cases os with
    | nil => rfl
    | cons o t =>
      cases hs with
      | nil => exact absurd hm (by simp [OutsMatch])
      | cons h u =>
        simp only [OutsMatch] at hm
        unfold countFresh
        rw [hm.1, ih t u hm.2]
        norm_num

theorem outsMatch_counts :
    ∀ (ds os : List Camera3Stream) (hs : List Nat), OutsMatch ds os hs →
      os.countP descInput = ds.countP descInput ∧
      os.countP descOutput = ds.countP descOutput := by
  intro ds
  induction ds with
  | nil =>
    intro os hs hm
    cases os with
    | nil => exact ⟨rfl, rfl⟩
    | cons o t => exact absurd hm (by cases hs <;> simp [OutsMatch])
  | cons a rest ih =>
    intro os hs hm
    cases os with
    | nil => exact absurd hm (by cases hs <;> simp [OutsMatch])
    | cons o t =>
      cases hs with
      | nil => exact absurd hm (by simp [OutsMatch])
      | cons h u =>
        simp only [OutsMatch] at hm
        obtain ⟨hin, hout⟩ := ih t u hm.2
        constructor
        · rw [List.countP_cons, List.countP_cons, hin, hm.1]
          rfl
        · rw [List.countP_cons, List.countP_cons, hout, hm.1]
          rfl

theorem outsMatch_resolves (camId : Int) (hp hpOld : Heap) :
    ∀ (ds os : List Camera3Stream) (hs : List Nat),
      OutsMatch ds os hs → StreamsMatch camId hp hpOld ds hs →
      ∀ o ∈ os, ∃ h d, o.priv = some h ∧ hp.find h = some d ∧
        d.isValidReuseStream camId o = true := by
  intro ds
  induction ds with
  | nil =>
    intro os hs hm _ o ho
    cases os with
    | nil => exact absurd ho (List.not_mem_nil o)
    | cons x t => exact absurd hm (by cases hs <;> simp [OutsMatch])
  | cons a rest ih =>
    intro os hs hm hsm o ho
    cases os with
    | nil => exact absurd ho (List.not_mem_nil o)
    | cons x t =>
      cases hs with
      | nil => exact absurd hm (by simp [OutsMatch])
      | cons h u =>
        simp only [OutsMatch] at hm
        simp only [StreamsMatch] at hsm
        obtain ⟨⟨d, hf, hid, hty, _⟩, hsmt⟩ := hsm
        rcases List.mem_cons.mp ho with he | hm'
        · subst he
          refine ⟨h, d, by rw [hm.1], hf, ?_⟩
          rw [hm.1]
          simp [StreamData.isValidReuseStream, hid, hty]
        · exact ih t u hm.2 hsmt o hm'

/-! ### Claim theorems: rollback on abort -/

/-- C2.  For a descriptor list whose candidate set has zero output-capable
streams or at least two input-capable ones (every reuse descriptor
resolving), `configureStreams` returns `-EINVAL` and rolls back: the
committed array (`mStreams`, hence `mNumStreams`) is unchanged and all its
streams still live, every freshly created candidate is freed (nothing at or
above the pre-call allocation bound survives), and every reused candidate
is left in the heap, at most its reuse marker set. -/
theorem configureStreams_invalid_rollback (c : Camera)
    (ds : List Camera3Stream)
    (hne : ds ≠ [])
    (hb : c.heap.bounded)
    (hlive : ∀ h ∈ c.mStreams, c.heap.find h ≠ none)
    (hres : ∀ a ∈ ds, a.max_buffers > 0 →
      ∃ h d, a.priv = some h ∧ c.heap.find h = some d ∧
        d.isValidReuseStream c.mId a = true)
    (hbad : ds.countP descOutput = 0 ∨ 2 ≤ ds.countP descInput) :
    ∃ cE os,
      c.configureStreams (some ds) = (-EINVAL, cE, some os) ∧
      cE.mStreams = c.mStreams ∧
      (∀ h ∈ c.mStreams, cE.heap.find h ≠ none) ∧
      (∀ k, c.heap.next ≤ k → cE.heap.find k = none) ∧
      (∀ a ∈ ds, a.max_buffers > 0 →
        ∃ h d, a.priv = some h ∧ c.heap.find h = some d ∧
          cE.heap.find h = some { d with mReuse := true }) := by
  obtain ⟨cE, heq, hstr, _, _, _, _, Ea, Eb, Ec⟩ :=
    configure_invalid_main c ds hne hb hres hbad
  refine ⟨cE, _, heq, hstr, ?_, Ea, Ec⟩
  intro h hm
  cases hf : c.heap.find h with
  | none => exact absurd hf (hlive h hm)
  | some d =>
    obtain ⟨b, hb2⟩ := Eb h d hf
    rw [hb2]
    exact Option.noConfusion

/-- C3.  A descriptor list containing a descriptor that signals reuse of a
live backing stream whose recorded device id or type classification differs
makes the whole transaction fail with `-EINVAL` even when every other
descriptor is individually valid: the committed array is unchanged, its
streams all survive, and every stream freshly created before the mismatch
is freed. -/
theorem configureStreams_reuse_mismatch (c : Camera)
    (pre : List Camera3Stream) (aK : Camera3Stream)
    (post : List Camera3Stream)
    (hb : c.heap.bounded)
    (hlive : ∀ h ∈ c.mStreams, c.heap.find h ≠ none)
    (hresPre : ∀ a ∈ pre, a.max_buffers > 0 →
      ∃ h d, a.priv = some h ∧ c.heap.find h = some d ∧
        d.isValidReuseStream c.mId a = true)
    (hposK : aK.max_buffers > 0)
    (hK : ∃ h d, aK.priv = some h ∧ c.heap.find h = some d ∧
      d.isValidReuseStream c.mId aK = false) :
    ∃ cE os,
      c.configureStreams (some (pre ++ aK :: post)) =
        (-EINVAL, cE, some os) ∧
      cE.mStreams = c.mStreams ∧
      (∀ h ∈ c.mStreams, cE.heap.find h ≠ none) ∧
      (∀ k, c.heap.next ≤ k → cE.heap.find k = none) := by
  obtain ⟨cE, heq, hstr, _, _, _, _, _, Ea, Eb⟩ :=
    configure_mismatch_main c pre aK post hb hresPre hposK hK
  refine ⟨cE, _, heq, hstr, ?_, Ea⟩
  intro h hm
  cases hf : c.heap.find h with
  | none => exact absurd hf (hlive h hm)
  | some d =>
    obtain ⟨b, hb2⟩ := Eb h d hf
    rw [hb2]
    exact Option.noConfusion

/-- C6.  Calling `configureStreams` a second time with the descriptor list
returned by a successful first call reuses every stream: every returned
descriptor carries a positive max-buffer sentinel (so every descriptor of
the second call takes the reuse path), the second call succeeds, its
committed set is the identical handle array, and no stream is allocated
(the heap's allocation bound is unchanged). -/
theorem configureStreams_idempotent (c : Camera) (ds : List Camera3Stream)
    (hne : ds ≠ [])
    (hb : c.heap.bounded)
    (hlive : ∀ h ∈ c.mStreams, c.heap.find h ≠ none)
    (hres : ∀ a ∈ ds, a.max_buffers > 0 →
      ∃ h d, a.priv = some h ∧ c.heap.find h = some d ∧
        d.isValidReuseStream c.mId a = true)
    (hin : ds.countP descInput ≤ 1)
    (hout : 1 ≤ ds.countP descOutput) :
    ∃ c' os,
      c.configureStreams (some ds) = (0, c', some os) ∧
      (∀ o ∈ os, o.max_buffers > 0) ∧
      ∃ c'' os2,
        c'.configureStreams (some os) = (0, c'', os2) ∧
        c''.mStreams = c'.mStreams ∧
        c''.heap.next = c'.heap.next := by
  obtain ⟨c', os, heq, hid', _, _, _, hstr, _, hb', hsm, hom⟩ :=
    configure_ok_main c ds hne hb hlive hres hin hout
  have hlens := outsMatch_length ds os c'.mStreams hom
  have hmb : ∀ o ∈ os, o.max_buffers > 0 := by
    intro o ho
    rw [outsMatch_max_buffers ds os c'.mStreams hom o ho]
    norm_num
  have hne2 : os ≠ [] := by
    intro hnil
    rw [hnil] at hlens
    have := hlens.1
    simp at this
    exact hne (List.length_eq_zero.mp this.symm)
  have hlive2 : ∀ h ∈ c'.mStreams, c'.heap.find h ≠ none :=
    streamsMatch_live c.mId c'.heap c.heap ds c'.mStreams hsm
  have hres2 : ∀ o ∈ os, o.max_buffers > 0 →
      ∃ h d, o.priv = some h ∧ c'.heap.find h = some d ∧
        d.isValidReuseStream c'.mId o = true := by
    intro o ho _
    rw [hid']
    exact outsMatch_resolves c.mId c'.heap c.heap ds os c'.mStreams
      hom hsm o ho
  have hcounts := outsMatch_counts ds os c'.mStreams hom
  obtain ⟨c'', os2, heq2, _, _, _, _, hstr2, hnext2, _, _, _⟩ :=
    configure_ok_main c' os hne2 hb' hlive2 hres2
      (by rw [hcounts.1]; exact hin) (by rw [hcounts.2]; exact hout)
  refine ⟨c', os, heq, hmb, c'', some os2, heq2, ?_, ?_⟩
  · rw [hstr2]
    exact outsMatch_expected ds os c'.mStreams hom c'.heap.next
  · rw [hnext2, outsMatch_countFresh ds os c'.mStreams hom]
    omega

/-- C9.  When a transaction aborts — by aggregate-validation failure (first
part) or by a reuse mismatch at some index (second part) — only the
committed stream set is rolled back: the caller's descriptor list comes
back with every entry processed before the abort keeping its overwritten
`priv` tag (and entries after a mismatch untouched), the tags of entries
whose stream was created in the failed transaction now dangling (their
streams freed), and the list is never restored to its pre-call tags. -/
theorem configureStreams_abort_tags (c1 c2 : Camera)
    (ds pre : List Camera3Stream) (aK : Camera3Stream)
    (post : List Camera3Stream) :
    ((ds ≠ []) → c1.heap.bounded →
      (∀ a ∈ ds, a.max_buffers > 0 →
        ∃ h d, a.priv = some h ∧ c1.heap.find h = some d ∧
          d.isValidReuseStream c1.mId a = true) →
      (ds.countP descOutput = 0 ∨ 2 ≤ ds.countP descInput) →
      ∃ cE,
        c1.configureStreams (some ds) =
          (-EINVAL, cE,
            some (tagDescs ds (expectedHandles c1.heap.next ds))) ∧
        TagsMatch ds (tagDescs ds (expectedHandles c1.heap.next ds))
          (expectedHandles c1.heap.next ds) ∧
        (∀ h ∈ expectedHandles c1.heap.next ds, c1.heap.find h = none →
          cE.heap.find h = none)) ∧
    (c2.heap.bounded →
      (∀ a ∈ pre, a.max_buffers > 0 →
        ∃ h d, a.priv = some h ∧ c2.heap.find h = some d ∧
          d.isValidReuseStream c2.mId a = true) →
      aK.max_buffers > 0 →
      (∃ h d, aK.priv = some h ∧ c2.heap.find h = some d ∧
        d.isValidReuseStream c2.mId aK = false) →
      ∃ cE,
        c2.configureStreams (some (pre ++ aK :: post)) =
          (-EINVAL, cE,
            some (tagDescs pre (expectedHandles c2.heap.next pre) ++
              (aK :: post))) ∧
        TagsMatch pre (tagDescs pre (expectedHandles c2.heap.next pre))
          (expectedHandles c2.heap.next pre) ∧
        (∀ h ∈ expectedHandles c2.heap.next pre, c2.heap.find h = none →
          cE.heap.find h = none)) := by
  constructor
  · intro hne hb hres hbad
    obtain ⟨cE, heq, _, _, _, _, _, Ea, _, _⟩ :=
      configure_invalid_main c1 ds hne hb hres hbad
    refine ⟨cE, heq,
      tagsMatch_tagDescs ds (expectedHandles c1.heap.next ds)
        (expectedHandles_length ds c1.heap.next).symm, ?_⟩
    intro h hm hdead
    rcases mem_expectedHandles ds c1.heap.next h hm with hge | ⟨a, ha, hpos, hpr⟩
    · exact Ea h hge
    · obtain ⟨h2, d2, hpriv2, hf2, _⟩ := hres a ha hpos
      rw [hpriv2] at hpr
      simp only [Option.getD_some] at hpr
      rw [hpr] at hf2
      rw [hf2] at hdead
      exact Option.noConfusion hdead
  · intro hb hresPre hposK hK
    obtain ⟨cE, heq, _, _, _, _, _, htags, Ea, _⟩ :=
      configure_mismatch_main c2 pre aK post hb hresPre hposK hK
    refine ⟨cE, heq, htags, ?_⟩
    intro h hm hdead
    rcases mem_expectedHandles pre c2.heap.next h hm with hge | ⟨a, ha, hpos, hpr⟩
    · exact Ea h hge
    · obtain ⟨h2, d2, hpriv2, hf2, _⟩ := hresPre a ha hpos
      rw [hpriv2] at hpr
      simp only [Option.getD_some] at hpr
      rw [hpr] at hf2
      rw [hf2] at hdead
      exact Option.noConfusion hdead

/-! ### Closed-input facts for the witnesses -/

theorem cam0_bounded : cam0.heap.bounded := fun _ _ => rfl

theorem cam0_live : ∀ h ∈ cam0.mStreams, cam0.heap.find h ≠ none := by
  intro h hm
  exact absurd hm (List.not_mem_nil h)

theorem camS_bounded : camS.heap.bounded := by
  intro k hk
  have hn : camS.heap.next = 1 := rfl
  rw [hn] at hk
  have hk0 : ¬ (k = 0) := by omega
  show (if k = 0 then some sOut0 else none) = none
  rw [if_neg hk0]

theorem camS_live : ∀ h ∈ camS.mStreams, camS.heap.find h ≠ none := by
  intro h hm
  have hm' : h ∈ [(0 : Nat)] := hm
  rw [List.mem_singleton] at hm'
  subst hm'
  intro hco
  have hv : camS.heap.find 0 = some sOut0 := rfl
  rw [hv] at hco
  exact Option.noConfusion hco

theorem dOut_no_reuse (c : Camera) : ∀ a ∈ [dOut], a.max_buffers > 0 →
    ∃ h d, a.priv = some h ∧ c.heap.find h = some d ∧
      d.isValidReuseStream c.mId a = true := by
  intro a ha hpos
  rw [List.mem_singleton] at ha
  subst ha
  exact absurd hpos (by decide)

theorem dIn_no_reuse (c : Camera) : ∀ a ∈ [dIn], a.max_buffers > 0 →
    ∃ h d, a.priv = some h ∧ c.heap.find h = some d ∧
      d.isValidReuseStream c.mId a = true := by
  intro a ha hpos
  rw [List.mem_singleton] at ha
  subst ha
  exact absurd hpos (by decide)

/-! ### Witness theorems -/

/-- Witness for C1: a fresh device, one fresh output descriptor. -/
theorem configureStreams_success_witness :
    (([dOut] : List Camera3Stream) ≠ []) ∧
    cam0.heap.bounded ∧
    (∀ h ∈ cam0.mStreams, cam0.heap.find h ≠ none) ∧
    (∀ a ∈ [dOut], a.max_buffers > 0 →
      ∃ h d, a.priv = some h ∧ cam0.heap.find h = some d ∧
        d.isValidReuseStream cam0.mId a = true) ∧
    [dOut].countP descInput ≤ 1 ∧
    1 ≤ [dOut].countP descOutput ∧
    ∃ c' os,
      cam0.configureStreams (some [dOut]) = (0, c', some os) ∧
      c'.mStreams.length = [dOut].length ∧
      StreamsMatch cam0.mId c'.heap cam0.heap [dOut] c'.mStreams :=
  ⟨by decide, cam0_bounded, cam0_live, dOut_no_reuse cam0, by decide,
    by decide,
    configureStreams_success cam0 [dOut] (by decide) cam0_bounded cam0_live
      (dOut_no_reuse cam0) (by decide) (by decide)⟩

/-- Witness for C2: a fresh device, one fresh input descriptor (so zero
output-capable streams). -/
theorem configureStreams_invalid_rollback_witness :
    (([dIn] : List Camera3Stream) ≠ []) ∧
    cam0.heap.bounded ∧
    (∀ h ∈ cam0.mStreams, cam0.heap.find h ≠ none) ∧
    (∀ a ∈ [dIn], a.max_buffers > 0 →
      ∃ h d, a.priv = some h ∧ cam0.heap.find h = some d ∧
        d.isValidReuseStream cam0.mId a = true) ∧
    ([dIn].countP descOutput = 0 ∨ 2 ≤ [dIn].countP descInput) ∧
    ∃ cE os,
      cam0.configureStreams (some [dIn]) = (-EINVAL, cE, some os) ∧
      cE.mStreams = cam0.mStreams ∧
      (∀ h ∈ cam0.mStreams, cE.heap.find h ≠ none) ∧
      (∀ k, cam0.heap.next ≤ k → cE.heap.find k = none) ∧
      (∀ a ∈ [dIn], a.max_buffers > 0 →
        ∃ h d, a.priv = some h ∧ cam0.heap.find h = some d ∧
          cE.heap.find h = some { d with mReuse := true }) :=
  ⟨by decide, cam0_bounded, cam0_live, dIn_no_reuse cam0, by decide,
    configureStreams_invalid_rollback cam0 [dIn] (by decide) cam0_bounded
      cam0_live (dIn_no_reuse cam0) (by decide)⟩

/-- Witness for C3: a device with one committed output stream at handle 0,
a valid fresh output descriptor followed by a descriptor claiming reuse of
handle 0 with mismatched (input) type. -/
theorem configureStreams_reuse_mismatch_witness :
    camS.heap.bounded ∧
    (∀ h ∈ camS.mStreams, camS.heap.find h ≠ none) ∧
    (∀ a ∈ [dOut], a.max_buffers > 0 →
      ∃ h d, a.priv = some h ∧ camS.heap.find h = some d ∧
        d.isValidReuseStream camS.mId a = true) ∧
    dInReuse.max_buffers > 0 ∧
    (∃ h d, dInReuse.priv = some h ∧ camS.heap.find h = some d ∧
      d.isValidReuseStream camS.mId dInReuse = false) ∧
    ∃ cE os,
      camS.configureStreams (some ([dOut] ++ dInReuse :: [])) =
        (-EINVAL, cE, some os) ∧
      cE.mStreams = camS.mStreams ∧
      (∀ h ∈ camS.mStreams, cE.heap.find h ≠ none) ∧
      (∀ k, camS.heap.next ≤ k → cE.heap.find k = none) :=
  ⟨camS_bounded, camS_live, dOut_no_reuse camS, by decide,
    ⟨0, sOut0, rfl, rfl, by decide⟩,
    configureStreams_reuse_mismatch camS [dOut] dInReuse [] camS_bounded
      camS_live (dOut_no_reuse camS) (by decide)
      ⟨0, sOut0, rfl, rfl, by decide⟩⟩

/-- Witness for C5: the single committed output stream gets write usage
flags and max-buffers 1. -/
theorem setupStreams_spec_witness :
    ((0 : Nat) ∈ [(0 : Nat)]) ∧ heap1.find 0 = some sOut0 ∧
    (setupStreams heap1 [0]).find 0 =
      some { sOut0 with
        mUsage :=
          (if sOut0.isOutputType then
            GRALLOC_USAGE_SW_WRITE_OFTEN ||| GRALLOC_USAGE_HW_CAMERA_WRITE
          else 0) |||
          (if sOut0.isInputType then
            GRALLOC_USAGE_SW_READ_OFTEN ||| GRALLOC_USAGE_HW_CAMERA_READ
          else 0),
        mMaxBuffers := 1 } :=
  ⟨by decide, rfl, setupStreams_spec heap1 [0] 0 sOut0 (by decide) rfl⟩

/-- Witness for C6: a fresh device, one fresh output descriptor, configured
twice. -/
theorem configureStreams_idempotent_witness :
    (([dOut] : List Camera3Stream) ≠ []) ∧
    cam0.heap.bounded ∧
    (∀ h ∈ cam0.mStreams, cam0.heap.find h ≠ none) ∧
    (∀ a ∈ [dOut], a.max_buffers > 0 →
      ∃ h d, a.priv = some h ∧ cam0.heap.find h = some d ∧
        d.isValidReuseStream cam0.mId a = true) ∧
    [dOut].countP descInput ≤ 1 ∧
    1 ≤ [dOut].countP descOutput ∧
    ∃ c' os,
      cam0.configureStreams (some [dOut]) = (0, c', some os) ∧
      (∀ o ∈ os, o.max_buffers > 0) ∧
      ∃ c'' os2,
        c'.configureStreams (some os) = (0, c'', os2) ∧
        c''.mStreams = c'.mStreams ∧
        c''.heap.next = c'.heap.next :=
  ⟨by decide, cam0_bounded, cam0_live, dOut_no_reuse cam0, by decide,
    by decide,
    configureStreams_idempotent cam0 [dOut] (by decide) cam0_bounded
      cam0_live (dOut_no_reuse cam0) (by decide) (by decide)⟩

/-- Witness for C9: a validation abort (fresh device, input-only list) and
a mismatch abort (committed output stream, mismatched reuse claim). -/
theorem configureStreams_abort_tags_witness :
    (([dIn] : List Camera3Stream) ≠ []) ∧
    cam0.heap.bounded ∧ camS.heap.bounded ∧
    dInReuse.max_buffers > 0 ∧
    ([dIn].countP descOutput = 0 ∨ 2 ≤ [dIn].countP descInput) ∧
    (∃ cE,
      cam0.configureStreams (some [dIn]) =
        (-EINVAL, cE,
          some (tagDescs [dIn] (expectedHandles cam0.heap.next [dIn]))) ∧
      TagsMatch [dIn] (tagDescs [dIn] (expectedHandles cam0.heap.next [dIn]))
        (expectedHandles cam0.heap.next [dIn]) ∧
      (∀ h ∈ expectedHandles cam0.heap.next [dIn],
        cam0.heap.find h = none → cE.heap.find h = none)) ∧
    (∃ cE,
      camS.configureStreams (some ([dOut] ++ dInReuse :: [])) =
        (-EINVAL, cE,
          some (tagDescs [dOut] (expectedHandles camS.heap.next [dOut]) ++
            (dInReuse :: []))) ∧
      TagsMatch [dOut]
        (tagDescs [dOut] (expectedHandles camS.heap.next [dOut]))
        (expectedHandles camS.heap.next [dOut]) ∧
      (∀ h ∈ expectedHandles camS.heap.next [dOut],
        camS.heap.find h = none → cE.heap.find h = none)) := by
  refine ⟨by decide, cam0_bounded, camS_bounded, by decide, by decide,
    ?_, ?_⟩
  · exact (configureStreams_abort_tags cam0 camS [dIn] [dOut] dInReuse []).1
      (by decide) cam0_bounded (dIn_no_reuse cam0) (by decide)
  · exact (configureStreams_abort_tags cam0 camS [dIn] [dOut] dInReuse []).2
      camS_bounded (dOut_no_reuse camS) (by decide)
      ⟨0, sOut0, rfl, rfl, by decide⟩

end DefaultCameraHal
